import Mathlib

/-! ## TI-Speak TMS5220 core: shallow embedding and verification

This file embeds the numeric core of the TI-Speak repository (a TMS5220
speech-synthesizer emulator written in JavaScript) into Lean 4 and proves
properties of the embedded code.

Embedded components:
* `src/core/coefficients.js` — the constant lookup tables;
* the speech frame decoder / encoder (`decodeFrames` / `encodeFrames`);
* `public/js/core/lpc-lattice.js` — the ten-stage lattice filter
  (`processTMS5220`);
* `public/js/core/tms5220.js` — the synthesis engine (`readNextFrame`,
  `generateNoise`, `generateExcitation`, `generateSample`, `synthesize`,
  `synthesizeFromFrames`).

Modelling conventions: JavaScript numbers on the integer paths are modelled
as `Nat`/`Int`; the floating-point lattice arithmetic is modelled exactly
over `ℚ`; `Math.round` is `⌊x + 1/2⌋` (round half toward +∞), matching
JavaScript; `Math.max/Math.min` clamps become `max`/`min`.
-/

/-! ## Coefficient tables (`src/core/coefficients.js`) -/

/-- Energy table (4 bits, 16 values); index 15 is the stop code. -/
def ENERGY_TABLE : List Int :=
  [0, 1, 2, 3, 4, 6, 8, 11, 16, 23, 33, 47, 63, 85, 114, 0]

/-- Pitch table for TMS5220 (6 bits, 64 values); index 0 means unvoiced. -/
def PITCH_TABLE : List Int :=
  [0, 15, 16, 17, 18, 19, 20, 21,
   22, 23, 24, 25, 26, 27, 28, 29,
   30, 31, 32, 33, 34, 35, 36, 37,
   38, 39, 40, 41, 42, 44, 46, 48,
   50, 52, 53, 56, 58, 60, 62, 65,
   68, 70, 72, 76, 78, 80, 84, 86,
   91, 94, 98, 101, 105, 109, 114, 118,
   122, 127, 132, 137, 142, 148, 153, 159]

/-- K1 table (5 bits, 32 values). -/
def K1_TABLE : List Int :=
  [-501, -498, -497, -495, -493, -491, -488, -482,
   -478, -474, -469, -464, -459, -452, -445, -437,
   -412, -380, -339, -288, -227, -158, -81, -1,
   80, 157, 226, 287, 337, 379, 411, 436]

/-- K2 table (5 bits, 32 values). -/
def K2_TABLE : List Int :=
  [-328, -303, -274, -244, -211, -175, -138, -99,
   -59, -18, 24, 64, 105, 143, 180, 215,
   248, 278, 306, 331, 354, 374, 392, 408,
   422, 435, 445, 455, 463, 470, 476, 506]

/-- K3 table (4 bits, 16 values). -/
def K3_TABLE : List Int :=
  [-441, -387, -333, -279, -225, -171, -117, -63,
   -9, 45, 98, 152, 206, 260, 314, 368]

/-- K4 table (4 bits, 16 values). -/
def K4_TABLE : List Int :=
  [-328, -273, -217, -161, -106, -50, 5, 61,
   116, 172, 228, 283, 339, 394, 450, 506]

/-- K5 table (4 bits, 16 values). -/
def K5_TABLE : List Int :=
  [-328, -282, -235, -189, -142, -96, -50, -3,
   43, 90, 136, 182, 229, 275, 322, 368]

/-- K6 table (4 bits, 16 values). -/
def K6_TABLE : List Int :=
  [-256, -212, -168, -123, -79, -35, 10, 54,
   98, 143, 187, 232, 276, 320, 365, 409]

/-- K7 table (4 bits, 16 values). -/
def K7_TABLE : List Int :=
  [-308, -260, -212, -164, -117, -69, -21, 27,
   75, 122, 170, 218, 266, 314, 361, 409]

/-- K8 table (3 bits, 8 values). -/
def K8_TABLE : List Int :=
  [-256, -161, -66, 29, 124, 219, 314, 409]

/-- K9 table (3 bits, 8 values). -/
def K9_TABLE : List Int :=
  [-256, -176, -96, -15, 65, 146, 226, 307]

/-- K10 table (3 bits, 8 values). -/
def K10_TABLE : List Int :=
  [-205, -132, -59, 14, 87, 160, 234, 307]

/-- All K tables combined for easy indexing. -/
def K_TABLES : List (List Int) :=
  [K1_TABLE, K2_TABLE, K3_TABLE, K4_TABLE, K5_TABLE,
   K6_TABLE, K7_TABLE, K8_TABLE, K9_TABLE, K10_TABLE]

/-- Bit widths for each K parameter. -/
def K_BITS : List Nat := [5, 5, 4, 4, 4, 4, 4, 3, 3, 3]

/-- Chirp table (excitation waveform for voiced sounds), raw byte values. -/
def CHIRP_TABLE : List Nat :=
  [0x00, 0x03, 0x0f, 0x28, 0x4c, 0x6c, 0x71, 0x50,
   0x25, 0x26, 0x4c, 0x44, 0x1a, 0x32, 0x3b, 0x13,
   0x37, 0x1a, 0x25, 0x1f, 0x1d, 0x00, 0x00, 0x00,
   0x00, 0x00, 0x00, 0x00, 0x00, 0x00, 0x00, 0x00,
   0x00, 0x00, 0x00, 0x00, 0x00, 0x00, 0x00, 0x00,
   0x00, 0x00, 0x00, 0x00, 0x00, 0x00, 0x00, 0x00,
   0x00, 0x00, 0x00, 0x00]

/-- Chirp table converted to signed values (`v > 127 ? v - 256 : v`). -/
def CHIRP_TABLE_SIGNED : List Int :=
  CHIRP_TABLE.map (fun v => if v > 127 then (v : Int) - 256 else (v : Int))

/-- Interpolation coefficients (right-shift amounts per interpolation period). -/
def INTERP_COEFF : List Nat := [0, 3, 3, 3, 2, 2, 1, 1]

/-- Sample rate (8 kHz). -/
def SAMPLE_RATE : Nat := 8000

/-- Samples per frame (200 samples = 25 ms at 8 kHz). -/
def SAMPLES_PER_FRAME : Nat := 200

/-- Interpolation periods per frame. -/
def INTERP_PERIODS : Nat := 8

/-- Samples per interpolation period (`SAMPLES_PER_FRAME / INTERP_PERIODS`). -/
def SAMPLES_PER_INTERP : Nat := SAMPLES_PER_FRAME / INTERP_PERIODS

/-! ## Frame model (frame objects produced by the decoder)

The JavaScript decoder produces dynamically-typed objects whose fields are
present or absent depending on the frame type.  `FrameR` mirrors that object:
absent fields are `none`. -/

/-- Frame types in TMS5220 speech data (`FrameType` in the source). -/
inductive FrameType where
  | voiced
  | unvoiced
  | repeatF
  | silence
  | stop
deriving DecidableEq, Repr

/-- A decoded frame object: fields may be absent (`none`), mirroring the
dynamic JavaScript record. -/
structure FrameR where
  type : FrameType
  energyIndex : Nat
  energy : Int
  repeatFlag : Option Bool := none
  pitchIndex : Option Nat := none
  pitch : Option Int := none
  kIndices : Option (List Nat) := none
  k : Option (List Int) := none
deriving DecidableEq, Repr

/-- The stop frame object built by the decoder. -/
def stopFrame : FrameR :=
  { type := .stop, energyIndex := 15, energy := 0 }

/-- The silence frame object built by the decoder. -/
def silenceFrame : FrameR :=
  { type := .silence, energyIndex := 0, energy := 0 }

/-- K value lookup: `K_TABLES[i][idx]` (out of range gives 0). -/
def kLookup (i idx : Nat) : Int := (K_TABLES.getD i []).getD idx 0

/-- The repeat frame object built by the decoder: energy and pitch are
decoded, no K fields. -/
def mkRepeat (e pi' : Nat) : FrameR :=
  { type := .repeatF, energyIndex := e, energy := ENERGY_TABLE.getD e 0,
    repeatFlag := some true, pitchIndex := some pi',
    pitch := some (PITCH_TABLE.getD pi' 0) }

/-- The unvoiced frame object built by the decoder: K1–K4 decoded, K5–K10
indices and values filled with zeros. -/
def mkUnvoiced (e pi' : Nat) (ks4 : List Nat) : FrameR :=
  { type := .unvoiced, energyIndex := e, energy := ENERGY_TABLE.getD e 0,
    repeatFlag := some false, pitchIndex := some pi',
    pitch := some (PITCH_TABLE.getD pi' 0),
    kIndices := some (ks4 ++ List.replicate 6 0),
    k := some ((List.range 4).map (fun i => kLookup i (ks4.getD i 0)) ++
               List.replicate 6 (0 : Int)) }

/-- The voiced frame object built by the decoder: all ten K parameters. -/
def mkVoiced (e pi' : Nat) (ks : List Nat) : FrameR :=
  { type := .voiced, energyIndex := e, energy := ENERGY_TABLE.getD e 0,
    repeatFlag := some false, pitchIndex := some pi',
    pitch := some (PITCH_TABLE.getD pi' 0),
    kIndices := some ks,
    k := some ((List.range 10).map (fun i => kLookup i (ks.getD i 0))) }

/-! ## Bit reader and frame decoder (`decodeFrames` in the source)

The source reads bits LSB-first within each byte, assembling a `w`-bit field
by placing stream bit `i` at value bit `i`; bit positions beyond the end of
the byte array contribute 0 (the read still advances). -/

/-- One stream bit: `(bits[p / 8] >> (p % 8)) & 1`, or 0 past the end. -/
def bitAt (data : List Nat) (p : Nat) : Nat :=
  if h : p / 8 < data.length then (data.get ⟨p / 8, h⟩ >>> (p % 8)) &&& 1 else 0

/-- `readBits` of the source as a pure function of the start position:
`value |= bit(bitPos + i) << i` for `i < numBits`. -/
def readBitsVal (data : List Nat) (bitPos numBits : Nat) : Nat :=
  (List.range numBits).foldl (fun value i => value ||| (bitAt data (bitPos + i) <<< i)) 0

/-- Sequential reads of fields of the given widths starting at `bitPos`
(the K-parameter read loop of the source). -/
def readSeq (data : List Nat) (bitPos : Nat) : List Nat → List Nat
  | [] => []
  | w :: ws => readBitsVal data bitPos w :: readSeq data (bitPos + w) ws

/-- The decoder loop of `decodeFrames`: reads frames starting at `bitPos`
until a stop code or the end of the data. -/
def decodeLoop (data : List Nat) (bitPos : Nat) : List FrameR :=
  if h : bitPos < data.length * 8 then
    let energyIndex := readBitsVal data bitPos 4
    if energyIndex = 15 then [stopFrame]
    else if energyIndex = 0 then silenceFrame :: decodeLoop data (bitPos + 4)
    else
      let repeatBit := readBitsVal data (bitPos + 4) 1
      let pitchIndex := readBitsVal data (bitPos + 5) 6
      if repeatBit = 1 then
        mkRepeat energyIndex pitchIndex :: decodeLoop data (bitPos + 11)
      else
        let ks4 := readSeq data (bitPos + 11) (K_BITS.take 4)
        if pitchIndex = 0 then
          mkUnvoiced energyIndex pitchIndex ks4 :: decodeLoop data (bitPos + 29)
        else
          let ks10 := ks4 ++ readSeq data (bitPos + 29) (K_BITS.drop 4)
          mkVoiced energyIndex pitchIndex ks10 :: decodeLoop data (bitPos + 50)
  else []
termination_by data.length * 8 - bitPos
decreasing_by all_goals omega

/-- Decode frames from a raw LPC bitstream (`decodeFrames` in the source). -/
def decodeFrames (data : List Nat) : List FrameR :=
  decodeLoop data 0

/-! ## Frame encoder (`encodeFrames` in the source) -/

/-- `writeBits(value, numBits)`: pushes `(value >> i) & 1` for `i < numBits`. -/
def writeBits (value numBits : Nat) : List Nat :=
  (List.range numBits).map (fun i => (value >>> i) &&& 1)

/-- The bits pushed for one frame by the encoder. -/
def encFrameBits (f : FrameR) : List Nat :=
  if f.type = .stop then writeBits 15 4
  else if f.type = .silence then writeBits 0 4
  else
    writeBits f.energyIndex 4 ++
    writeBits (if f.repeatFlag.getD false then 1 else 0) 1 ++
    writeBits (f.pitchIndex.getD 0) 6 ++
    (if f.repeatFlag.getD false then []
     else
       let numK := if f.type = .unvoiced then 4 else 10
       ((List.range numK).map
         (fun i => writeBits ((f.kIndices.getD []).getD i 0) (K_BITS.getD i 0))).flatten)

/-- One output byte from a chunk of up to 8 bits: `byte |= bits[j] << j`. -/
def byteOfChunk (chunk : List Nat) : Nat :=
  (List.range chunk.length).foldl (fun byte j => byte ||| (chunk.getD j 0 <<< j)) 0

/-- Pack a bit list into bytes, 8 bits per byte, LSB first; the trailing bits
of the last byte are zero-padded. -/
def bitsToBytes (bits : List Nat) : List Nat :=
  if h : bits = [] then [] else byteOfChunk (bits.take 8) :: bitsToBytes (bits.drop 8)
termination_by bits.length
decreasing_by
  simp only [List.length_drop]
  cases bits with
  | nil => exact absurd rfl h
  | cons b bs => simp; omega

/-- Encode frames to a raw LPC bitstream (`encodeFrames` in the source):
per-frame bits, a stop code appended when the list does not already end with
one, packed into zero-padded bytes. -/
def encodeFrames (frames : List FrameR) : List Nat :=
  let bits := (frames.map encFrameBits).flatten ++
    (match frames.getLast? with
     | none => writeBits 15 4
     | some f => if f.type = .stop then [] else writeBits 15 4)
  bitsToBytes bits

/-! ## Specification-side decoder (written from the spec's words, §4.1/§6)

The spec describes the stream as a flat sequence of bits, each byte
contributing its bits least-significant first; a `w`-bit field takes the next
`w` bits of the stream, stream bit `i` becoming value bit `i`.  These
definitions follow the spec's wording; `decodeFrames_eq_specDecode` below
proves the source decoder equal to this description. -/

/-- The bits of one byte, least-significant first. -/
def byteBits (b : Nat) : List Nat :=
  (List.range 8).map (fun i => (b >>> i) &&& 1)

/-- The bit stream of a byte array per the spec: each byte read LSB-first. -/
def bytesToBits (data : List Nat) : List Nat :=
  (data.map byteBits).flatten

/-- Value of a field from its bit list: stream bit `i` at value bit `i`. -/
def fieldVal (bs : List Nat) : Nat :=
  bs.foldr (fun b acc => b + 2 * acc) 0

/-- Read consecutive fields of the given widths; returns the values and the
remaining bit stream. -/
def readFields : List Nat → List Nat → List Nat × List Nat
  | [], bs => ([], bs)
  | w :: ws, bs =>
    let v := fieldVal (bs.take w)
    let r := readFields ws (bs.drop w)
    (v :: r.1, r.2)

theorem readFields_snd_length (ws bs : List Nat) :
    (readFields ws bs).2.length ≤ bs.length := by
  induction ws generalizing bs with
  | nil => simp [readFields]
  | cons w ws ih =>
    simp only [readFields]
    exact le_trans (ih (bs.drop w)) (by simp)

/-- Frame decoding per the spec (§4.1): 4-bit energy; 15 ⇒ Stop and stop
decoding; 0 ⇒ Silence, no further bits; else 1-bit repeat and 6-bit pitch;
unless repeat, K fields of widths 5,5,4,4, plus 4,4,4,3,3,3 when the pitch
index is nonzero. -/
def specDecode (bits : List Nat) : List FrameR :=
  if hbits : bits = [] then [] else
  let e := fieldVal (bits.take 4)
  if e = 15 then [stopFrame]
  else if e = 0 then silenceFrame :: specDecode (bits.drop 4)
  else
    let rp := fieldVal ((bits.drop 4).take 1)
    let pi' := fieldVal ((bits.drop 5).take 6)
    if rp = 1 then mkRepeat e pi' :: specDecode (bits.drop 11)
    else
      let res4 := readFields [5, 5, 4, 4] (bits.drop 11)
      if pi' = 0 then mkUnvoiced e pi' res4.1 :: specDecode res4.2
      else
        let res6 := readFields [4, 4, 4, 3, 3, 3] res4.2
        mkVoiced e pi' (res4.1 ++ res6.1) :: specDecode res6.2
termination_by bits.length
decreasing_by
  · cases bits with
    | nil => exact absurd rfl hbits
    | cons b bs => simp; omega
  · cases bits with
    | nil => exact absurd rfl hbits
    | cons b bs => simp; omega
  · have h1 := readFields_snd_length [5, 5, 4, 4] (bits.drop 11)
    have h2 : (bits.drop 11).length = bits.length - 11 := by simp
    cases bits with
    | nil => exact absurd rfl hbits
    | cons b bs => simp at h1 h2 ⊢; omega
  · have h1 := readFields_snd_length [5, 5, 4, 4] (bits.drop 11)
    have h6 := readFields_snd_length [4, 4, 4, 3, 3, 3] (readFields [5, 5, 4, 4] (bits.drop 11)).2
    have h2 : (bits.drop 11).length = bits.length - 11 := by simp
    cases bits with
    | nil => exact absurd rfl hbits
    | cons b bs => simp at h1 h2 h6 ⊢; omega

/-- A frame object is well formed when it is exactly the record the decoder
builds for its type, with every index in range (energy index 1..14 for
speech frames, pitch index 0..63, K indices within each table's width). -/
def wfFrame (f : FrameR) : Bool :=
  match f.type with
  | .stop => f == stopFrame
  | .silence => f == silenceFrame
  | .repeatF =>
    decide (1 ≤ f.energyIndex) && decide (f.energyIndex ≤ 14) &&
    decide (f.pitchIndex.getD 0 < 64) &&
    (f == mkRepeat f.energyIndex (f.pitchIndex.getD 0))
  | .unvoiced =>
    decide (1 ≤ f.energyIndex) && decide (f.energyIndex ≤ 14) &&
    ((f.kIndices.getD []).length == 10) &&
    ((List.range 4).all fun i =>
      decide ((f.kIndices.getD []).getD i 0 < 2 ^ K_BITS.getD i 0)) &&
    (f == mkUnvoiced f.energyIndex 0 ((f.kIndices.getD []).take 4))
  | .voiced =>
    decide (1 ≤ f.energyIndex) && decide (f.energyIndex ≤ 14) &&
    decide (1 ≤ f.pitchIndex.getD 0) && decide (f.pitchIndex.getD 0 < 64) &&
    ((f.kIndices.getD []).length == 10) &&
    ((List.range 10).all fun i =>
      decide ((f.kIndices.getD []).getD i 0 < 2 ^ K_BITS.getD i 0)) &&
    (f == mkVoiced f.energyIndex (f.pitchIndex.getD 0) (f.kIndices.getD []))

/-! ## LPC lattice filter (`lpc-lattice.js`, `processTMS5220`)

The JavaScript arithmetic on the lattice path is floating point; it is
modelled exactly over `ℚ`.  `Math.round` in JavaScript rounds half toward
+∞: `Math.round(x) = ⌊x + 1/2⌋`. -/

/-- JavaScript `Math.round`: `⌊x + 1/2⌋` (stated computably via `Rat.floor`;
`jsRound_eq_floor` below identifies it with `⌊q + 1/2⌋`). -/
def jsRound (q : ℚ) : Int := (q + 1 / 2).floor

theorem jsRound_eq_floor (q : ℚ) : jsRound q = ⌊q + 1 / 2⌋ :=
  ((q + 1 / 2).floor_def').trans Rat.floor_def.symm

/-- One lattice stage `i`: `temp = y - ki*d[i]; d[i] += ki*temp; y = temp`,
with `ki = k[i] / 512`. -/
def stageStep (k : List Int) (i : Nat) (yd : ℚ × List ℚ) : ℚ × List ℚ :=
  let ki : ℚ := (k.getD i 0 : ℚ) / 512
  let temp := yd.1 - ki * yd.2.getD i 0
  (temp, yd.2.set i (yd.2.getD i 0 + ki * temp))

/-- `processTMS5220`: scale excitation by energy, run the ten stages from
K10 down to K1, shift the delay line up by one and store `y` at `d[0]`,
round and clamp to the 14-bit signed range. -/
def processTMS5220 (d : List ℚ) (excitation energy : Int) (k : List Int) :
    Int × List ℚ :=
  let y0 : ℚ := (excitation : ℚ) * (energy : ℚ)
  let yd := ((List.range 10).reverse).foldl (fun yd i => stageStep k i yd) (y0, d)
  let d1 := ((List.range 9).reverse.map (· + 1)).foldl
    (fun d i => d.set i (d.getD (i - 1) 0)) yd.2
  let d2 := d1.set 0 yd.1
  (max (-8192) (min 8191 (jsRound yd.1)), d2)

/-! ## Synthesis engine (`tms5220.js`) -/

/-- The TMS5220 engine state: every mutable field of the JavaScript class
(the lattice's delay line is inlined as `delay`). -/
structure TMS5220 where
  delay : List ℚ
  targetEnergy : Int
  targetPitch : Int
  targetK : List Int
  currentEnergy : Int
  currentPitch : Int
  currentK : List Int
  interpCount : Nat
  sampleCount : Nat
  pitchCount : Nat
  chirpIndex : Nat
  noiseRegister : Nat
  speaking : Bool
  talkStatus : Bool
  bufferLow : Bool
  bufferEmpty : Bool
  fifo : List Nat
  fifoBitPos : Nat
  frameData : Option (List Nat)
  frameBitPos : Nat
deriving DecidableEq, Repr

/-- The constructor state of the engine. -/
def initTMS : TMS5220 where
  delay := List.replicate 11 0
  targetEnergy := 0
  targetPitch := 0
  targetK := List.replicate 10 0
  currentEnergy := 0
  currentPitch := 0
  currentK := List.replicate 10 0
  interpCount := 0
  sampleCount := 0
  pitchCount := 0
  chirpIndex := 0
  noiseRegister := 0x1FFFF
  speaking := false
  talkStatus := false
  bufferLow := true
  bufferEmpty := true
  fifo := []
  fifoBitPos := 0
  frameData := none
  frameBitPos := 0

/-- `reset()`: every field is assigned its constructor value. -/
def TMS5220.reset (_s : TMS5220) : TMS5220 where
  delay := List.replicate 11 0
  targetEnergy := 0
  targetPitch := 0
  targetK := List.replicate 10 0
  currentEnergy := 0
  currentPitch := 0
  currentK := List.replicate 10 0
  interpCount := 0
  sampleCount := 0
  pitchCount := 0
  chirpIndex := 0
  noiseRegister := 0x1FFFF
  speaking := false
  talkStatus := false
  bufferLow := true
  bufferEmpty := true
  fifo := []
  fifoBitPos := 0
  frameData := none
  frameBitPos := 0

/-- The engine's `readBits`: returns 0 (without advancing) when there is no
frame data or the position is past the end; otherwise reads `numBits` bits
LSB-first and advances the position. -/
def engineReadBits (s : TMS5220) (numBits : Nat) : Nat × TMS5220 :=
  match s.frameData with
  | none => (0, s)
  | some data =>
    if s.frameBitPos ≥ data.length * 8 then (0, s)
    else (readBitsVal data s.frameBitPos numBits,
          { s with frameBitPos := s.frameBitPos + numBits })

/-- The K-parameter read loop of `readNextFrame`: for `n` indices starting
at `i`, read `K_BITS[i]` bits and store `K_TABLES[i][index]` in `targetK`. -/
def readKRange (s : TMS5220) (i : Nat) : Nat → TMS5220
  | 0 => s
  | n + 1 =>
    let r := engineReadBits s (K_BITS.getD i 0)
    readKRange { r.2 with targetK := r.2.targetK.set i (kLookup i r.1) } (i + 1) n

/-- `readNextFrame`: promote targets to currents, then decode the next frame
from the bit buffer into the target parameters.  Returns `false` on a stop
code. -/
def readNextFrame (s : TMS5220) : Bool × TMS5220 :=
  let s := { s with currentEnergy := s.targetEnergy, currentPitch := s.targetPitch,
                    currentK := s.targetK }
  let r := engineReadBits s 4
  let energyIndex := r.1
  let s := r.2
  if energyIndex = 15 then
    (false, { s with speaking := false, talkStatus := false, targetEnergy := 0 })
  else if energyIndex = 0 then
    (true, { s with targetEnergy := 0, targetPitch := 0,
                    targetK := List.replicate 10 0, interpCount := 0, sampleCount := 0 })
  else
    let s := { s with targetEnergy := ENERGY_TABLE.getD energyIndex 0 }
    let r := engineReadBits s 1
    let repeatFlag := r.1
    let r2 := engineReadBits r.2 6
    let pitchIndex := r2.1
    let s := { r2.2 with targetPitch := PITCH_TABLE.getD pitchIndex 0 }
    if repeatFlag ≠ 0 then
      (true, { s with interpCount := 0, sampleCount := 0 })
    else
      let s := readKRange s 0 4
      if pitchIndex = 0 then
        (true, { s with targetK := (List.range 6).foldl (fun tk i => tk.set (4 + i) 0) s.targetK,
                        interpCount := 0, sampleCount := 0 })
      else
        let s := readKRange s 4 6
        (true, { s with interpCount := 0, sampleCount := 0 })

/-- `loadSpeechData`: install the byte buffer, raise `speaking`/`talkStatus`,
and read the first frame. -/
def loadSpeechData (s : TMS5220) (data : List Nat) : TMS5220 :=
  let s := { s with frameData := some data, frameBitPos := 0,
                    speaking := true, talkStatus := true }
  (readNextFrame s).2

/-- The LFSR update of `generateNoise`:
`bit = ((reg >> 0) ^ (reg >> 3)) & 1; reg = (reg >> 1) | (bit << 16)`. -/
def noiseStep (r : Nat) : Nat :=
  (r >>> 1) ||| ((((r >>> 0) ^^^ (r >>> 3)) &&& 1) <<< 16)

/-- `generateNoise`: update the register, emit `+1` if the new low bit is 1
else `-1`. -/
def generateNoise (s : TMS5220) : Int × TMS5220 :=
  let reg := noiseStep s.noiseRegister
  ((if reg &&& 1 = 1 then 1 else -1), { s with noiseRegister := reg })

/-- `generateExcitation`: noise scaled by 64 when the pitch is 0; otherwise
the chirp sample at `pitchCount` (0 past the table end), advancing and
wrapping the pitch counter. -/
def generateExcitation (s : TMS5220) (pitch : Int) : Int × TMS5220 :=
  if pitch = 0 then
    let r := generateNoise s
    (r.1 * 64, r.2)
  else
    let excitation : Int :=
      if s.pitchCount < CHIRP_TABLE_SIGNED.length then
        CHIRP_TABLE_SIGNED.getD s.pitchCount 0
      else 0
    let pc := s.pitchCount + 1
    let pc := if (pc : Int) ≥ pitch then 0 else pc
    (excitation, { s with pitchCount := pc })

/-- JavaScript `ToInt32` (the coercion applied by the `>>` operator). -/
def toInt32 (x : Int) : Int := (x + 2 ^ 31).emod (2 ^ 32) - 2 ^ 31

/-- JavaScript `x >> s` for small shift counts: arithmetic shift on the
32-bit value, i.e. floor division by `2^s`. -/
def jsShr (x : Int) (s : Nat) : Int := (toInt32 x).fdiv (2 ^ s)

/-- `interpolate(current, target, period)`: snap to the target when the
shift for this period is 0, else `current + ((target - current) >> shift)`. -/
def interpolate (current target : Int) (period : Nat) : Int :=
  let shift := INTERP_COEFF.getD period 0
  if shift = 0 then target
  else current + jsShr (target - current) shift

/-- `generateSample`: one audio sample.  Interpolate the parameters, build
the excitation, run the lattice, scale by 4 and clamp to 16 bits, and
advance the sample / interpolation counters, pulling the next frame at a
frame boundary (returning 0 on a stop code or when not speaking). -/
def generateSample (s : TMS5220) : Int × TMS5220 :=
  if s.speaking = false then (0, s)
  else
    let energy := interpolate s.currentEnergy s.targetEnergy s.interpCount
    let pitch := jsRound ((interpolate s.currentPitch s.targetPitch s.interpCount : ℚ))
    let k := (List.range 10).map
      (fun i => interpolate (s.currentK.getD i 0) (s.targetK.getD i 0) s.interpCount)
    let re := generateExcitation s pitch
    let rl := processTMS5220 re.2.delay re.1 energy k
    let s := { re.2 with delay := rl.2 }
    let sample := jsRound ((rl.1 : ℚ) * 4)
    let sample := max (-32768) (min 32767 sample)
    let s := { s with sampleCount := s.sampleCount + 1 }
    if s.sampleCount ≥ SAMPLES_PER_INTERP then
      let s := { s with sampleCount := 0, interpCount := s.interpCount + 1 }
      if s.interpCount ≥ INTERP_PERIODS then
        let s := { s with interpCount := 0 }
        let rf := readNextFrame s
        if rf.1 then (sample, rf.2) else (0, rf.2)
      else (sample, s)
    else (sample, s)

/-- The `while (speaking && maxSamples > 0)` loop of `synthesize`. -/
def synthLoop : Nat → TMS5220 → List Int × TMS5220
  | 0, s => ([], s)
  | fuel + 1, s =>
    if s.speaking then
      let r := generateSample s
      let rest := synthLoop fuel r.2
      (r.1 :: rest.1, rest.2)
    else ([], s)

/-- The end-of-`synthesize` fade: the last `min(100, n)` samples are scaled
by `(fadeLength - i) / fadeLength` and re-rounded. -/
def applyFade (samples : List Int) : List Int :=
  let fadeLength := min 100 samples.length
  List.zipWith
    (fun (j : Nat) (v : Int) =>
      if samples.length - fadeLength ≤ j then
        jsRound ((v : ℚ) * ((fadeLength - (j - (samples.length - fadeLength)) : Nat) : ℚ) /
          (fadeLength : ℚ))
      else v)
    (List.range samples.length) samples

/-- `synthesize` before the fade: reset, load the data, and run the sample
loop with the 30-second safety cap. -/
def synthesizeRaw (s : TMS5220) (data : List Nat) : List Int × TMS5220 :=
  let s := s.reset
  let s := loadSpeechData s data
  synthLoop (SAMPLE_RATE * 30) s

/-- `synthesize(data)`: the sample loop followed by the end fade. -/
def synthesize (s : TMS5220) (data : List Nat) : List Int × TMS5220 :=
  let r := synthesizeRaw s data
  (applyFade r.1, r.2)

/-! ## Frame-path synthesis (`synthesizeFromFrames`) -/

/-- A caller-supplied frame for the frame path: `energy`, `pitch`, `k` may
each be absent (JavaScript `undefined`). -/
structure FrameP where
  energy : Option Int := none
  pitch : Option Int := none
  k : Option (List Int) := none
deriving DecidableEq, Repr

/-- `n` consecutive `generateSample` calls, collecting the samples. -/
def sampleBlock (s : TMS5220) : Nat → List Int × TMS5220
  | 0 => ([], s)
  | n + 1 =>
    let r := generateSample s
    let rest := sampleBlock r.2 n
    (r.1 :: rest.1, rest.2)

/-- The interpolation-period loop of `synthesizeFromFrames`: for each
remaining period, set `interpCount` and emit `SAMPLES_PER_INTERP` samples. -/
def periodsLoop (s : TMS5220) (interp : Nat) : Nat → List Int × TMS5220
  | 0 => ([], s)
  | n + 1 =>
    let r := sampleBlock { s with interpCount := interp } SAMPLES_PER_INTERP
    let rest := periodsLoop r.2 (interp + 1) n
    (r.1 ++ rest.1, rest.2)

/-- One frame of `synthesizeFromFrames`: promote targets to currents, set
the new targets from the frame's fields (absent fields give 0; an absent
`k` leaves the K targets unchanged), then run the eight periods. -/
def frameStep (s : TMS5220) (f : FrameP) : List Int × TMS5220 :=
  let s := { s with currentEnergy := s.targetEnergy, currentPitch := s.targetPitch,
                    currentK := s.targetK }
  let s := { s with targetEnergy := f.energy.getD 0, targetPitch := f.pitch.getD 0 }
  let s := match f.k with
    | none => s
    | some ks => { s with targetK := (List.range 10).map (fun i => ks.getD i 0) }
  periodsLoop s 0 INTERP_PERIODS

/-- The frame loop of `synthesizeFromFrames`. -/
def framesLoop (s : TMS5220) : List FrameP → List Int × TMS5220
  | [] => ([], s)
  | f :: fs =>
    let r := frameStep s f
    let rest := framesLoop r.2 fs
    (r.1 ++ rest.1, rest.2)

/-- `synthesizeFromFrames(frames)`: reset, raise `speaking`, run every
frame, then one frame of decay toward zero energy, then clear `speaking`. -/
def synthesizeFromFrames (s : TMS5220) (frames : List FrameP) : List Int × TMS5220 :=
  let s := s.reset
  let s := { s with speaking := true, talkStatus := true }
  let r := framesLoop s frames
  let s := { r.2 with currentEnergy := r.2.targetEnergy, targetEnergy := 0 }
  let rf := periodsLoop s 0 INTERP_PERIODS
  (r.1 ++ rf.1, { rf.2 with speaking := false })

/-! ## LFSR iteration helpers (for C3)

`noiseIter n r` is `noiseStep` iterated `n` times; the `match` on the
updated register keeps kernel evaluation of long iteration chains shallow. -/

def noiseIter : Nat → Nat → Nat
  | 0, r => r
  | n + 1, r =>
    match noiseStep r with
    | 0 => noiseIter n 0
    | m + 1 => noiseIter n (m + 1)

theorem noiseIter_eq_iterate (n : Nat) : ∀ r, noiseIter n r = noiseStep^[n] r := by
  induction n with
  | zero => intro r; rfl
  | succ n ih =>
    intro r
    rw [Function.iterate_succ_apply]
    have hu : noiseIter (n + 1) r =
        (match noiseStep r with
         | 0 => noiseIter n 0
         | m + 1 => noiseIter n (m + 1)) := rfl
    rw [hu]
    cases h : noiseStep r with
    | zero => exact ih 0
    | succ m => exact ih (m + 1)

set_option maxRecDepth 20000 in
set_option maxHeartbeats 4000000 in
/-- The LFSR orbit of the seed, verified in 4096-step chunks. -/
theorem noiseStep_iterate_full : noiseStep^[2 ^ 17 - 1] 0x1FFFF = 0x1FFFF := by
  have c0 : noiseIter 4096 131071 = 67724 := by decide
  have c1 : noiseIter 4096 67724 = 88206 := by decide
  have c2 : noiseIter 4096 88206 = 41048 := by decide
  have c3 : noiseIter 4096 41048 = 82179 := by decide
  have c4 : noiseIter 4096 82179 = 41928 := by decide
  have c5 : noiseIter 4096 41928 = 21432 := by decide
  have c6 : noiseIter 4096 21432 = 22688 := by decide
  have c7 : noiseIter 4096 22688 = 63503 := by decide
  have c8 : noiseIter 4096 63503 = 127420 := by decide
  have c9 : noiseIter 4096 127420 = 26847 := by decide
  have c10 : noiseIter 4096 26847 = 36760 := by decide
  have c11 : noiseIter 4096 36760 = 12223 := by decide
  have c12 : noiseIter 4096 12223 = 106622 := by decide
  have c13 : noiseIter 4096 106622 = 52320 := by decide
  have c14 : noiseIter 4096 52320 = 46704 := by decide
  have c15 : noiseIter 4096 46704 = 32512 := by decide
  have c16 : noiseIter 4096 32512 = 90023 := by decide
  have c17 : noiseIter 4096 90023 = 18831 := by decide
  have c18 : noiseIter 4096 18831 = 129862 := by decide
  have c19 : noiseIter 4096 129862 = 62432 := by decide
  have c20 : noiseIter 4096 62432 = 72099 := by decide
  have c21 : noiseIter 4096 72099 = 23495 := by decide
  have c22 : noiseIter 4096 23495 = 107012 := by decide
  have c23 : noiseIter 4096 107012 = 12415 := by decide
  have c24 : noiseIter 4096 12415 = 30615 := by decide
  have c25 : noiseIter 4096 30615 = 122371 := by decide
  have c26 : noiseIter 4096 122371 = 116897 := by decide
  have c27 : noiseIter 4096 116897 = 17400 := by decide
  have c28 : noiseIter 4096 17400 = 39375 := by decide
  have c29 : noiseIter 4096 39375 = 122750 := by decide
  have c30 : noiseIter 4096 122750 = 103367 := by decide
  have c31 : noiseIter 4095 103367 = 131071 := by decide
  have h0 := (noiseIter_eq_iterate _ _).symm.trans c0
  have h1 := (noiseIter_eq_iterate _ _).symm.trans c1
  have h2 := (noiseIter_eq_iterate _ _).symm.trans c2
  have h3 := (noiseIter_eq_iterate _ _).symm.trans c3
  have h4 := (noiseIter_eq_iterate _ _).symm.trans c4
  have h5 := (noiseIter_eq_iterate _ _).symm.trans c5
  have h6 := (noiseIter_eq_iterate _ _).symm.trans c6
  have h7 := (noiseIter_eq_iterate _ _).symm.trans c7
  have h8 := (noiseIter_eq_iterate _ _).symm.trans c8
  have h9 := (noiseIter_eq_iterate _ _).symm.trans c9
  have h10 := (noiseIter_eq_iterate _ _).symm.trans c10
  have h11 := (noiseIter_eq_iterate _ _).symm.trans c11
  have h12 := (noiseIter_eq_iterate _ _).symm.trans c12
  have h13 := (noiseIter_eq_iterate _ _).symm.trans c13
  have h14 := (noiseIter_eq_iterate _ _).symm.trans c14
  have h15 := (noiseIter_eq_iterate _ _).symm.trans c15
  have h16 := (noiseIter_eq_iterate _ _).symm.trans c16
  have h17 := (noiseIter_eq_iterate _ _).symm.trans c17
  have h18 := (noiseIter_eq_iterate _ _).symm.trans c18
  have h19 := (noiseIter_eq_iterate _ _).symm.trans c19
  have h20 := (noiseIter_eq_iterate _ _).symm.trans c20
  have h21 := (noiseIter_eq_iterate _ _).symm.trans c21
  have h22 := (noiseIter_eq_iterate _ _).symm.trans c22
  have h23 := (noiseIter_eq_iterate _ _).symm.trans c23
  have h24 := (noiseIter_eq_iterate _ _).symm.trans c24
  have h25 := (noiseIter_eq_iterate _ _).symm.trans c25
  have h26 := (noiseIter_eq_iterate _ _).symm.trans c26
  have h27 := (noiseIter_eq_iterate _ _).symm.trans c27
  have h28 := (noiseIter_eq_iterate _ _).symm.trans c28
  have h29 := (noiseIter_eq_iterate _ _).symm.trans c29
  have h30 := (noiseIter_eq_iterate _ _).symm.trans c30
  have h31 := (noiseIter_eq_iterate _ _).symm.trans c31
  have acc0 : noiseStep^[4096 * 0] 0x1FFFF = 131071 := rfl
  have acc1 : noiseStep^[4096 * 1] 0x1FFFF = 67724 := by
    have he : 4096 * 1 = 4096 + 4096 * 0 := by norm_num
    rw [he, Function.iterate_add_apply, acc0, h0]
  have acc2 : noiseStep^[4096 * 2] 0x1FFFF = 88206 := by
    have he : 4096 * 2 = 4096 + 4096 * 1 := by norm_num
    rw [he, Function.iterate_add_apply, acc1, h1]
  have acc3 : noiseStep^[4096 * 3] 0x1FFFF = 41048 := by
    have he : 4096 * 3 = 4096 + 4096 * 2 := by norm_num
    rw [he, Function.iterate_add_apply, acc2, h2]
  have acc4 : noiseStep^[4096 * 4] 0x1FFFF = 82179 := by
    have he : 4096 * 4 = 4096 + 4096 * 3 := by norm_num
    rw [he, Function.iterate_add_apply, acc3, h3]
  have acc5 : noiseStep^[4096 * 5] 0x1FFFF = 41928 := by
    have he : 4096 * 5 = 4096 + 4096 * 4 := by norm_num
    rw [he, Function.iterate_add_apply, acc4, h4]
  have acc6 : noiseStep^[4096 * 6] 0x1FFFF = 21432 := by
    have he : 4096 * 6 = 4096 + 4096 * 5 := by norm_num
    rw [he, Function.iterate_add_apply, acc5, h5]
  have acc7 : noiseStep^[4096 * 7] 0x1FFFF = 22688 := by
    have he : 4096 * 7 = 4096 + 4096 * 6 := by norm_num
    rw [he, Function.iterate_add_apply, acc6, h6]
  have acc8 : noiseStep^[4096 * 8] 0x1FFFF = 63503 := by
    have he : 4096 * 8 = 4096 + 4096 * 7 := by norm_num
    rw [he, Function.iterate_add_apply, acc7, h7]
  have acc9 : noiseStep^[4096 * 9] 0x1FFFF = 127420 := by
    have he : 4096 * 9 = 4096 + 4096 * 8 := by norm_num
    rw [he, Function.iterate_add_apply, acc8, h8]
  have acc10 : noiseStep^[4096 * 10] 0x1FFFF = 26847 := by
    have he : 4096 * 10 = 4096 + 4096 * 9 := by norm_num
    rw [he, Function.iterate_add_apply, acc9, h9]
  have acc11 : noiseStep^[4096 * 11] 0x1FFFF = 36760 := by
    have he : 4096 * 11 = 4096 + 4096 * 10 := by norm_num
    rw [he, Function.iterate_add_apply, acc10, h10]
  have acc12 : noiseStep^[4096 * 12] 0x1FFFF = 12223 := by
    have he : 4096 * 12 = 4096 + 4096 * 11 := by norm_num
    rw [he, Function.iterate_add_apply, acc11, h11]
  have acc13 : noiseStep^[4096 * 13] 0x1FFFF = 106622 := by
    have he : 4096 * 13 = 4096 + 4096 * 12 := by norm_num
    rw [he, Function.iterate_add_apply, acc12, h12]
  have acc14 : noiseStep^[4096 * 14] 0x1FFFF = 52320 := by
    have he : 4096 * 14 = 4096 + 4096 * 13 := by norm_num
    rw [he, Function.iterate_add_apply, acc13, h13]
  have acc15 : noiseStep^[4096 * 15] 0x1FFFF = 46704 := by
    have he : 4096 * 15 = 4096 + 4096 * 14 := by norm_num
    rw [he, Function.iterate_add_apply, acc14, h14]
  have acc16 : noiseStep^[4096 * 16] 0x1FFFF = 32512 := by
    have he : 4096 * 16 = 4096 + 4096 * 15 := by norm_num
    rw [he, Function.iterate_add_apply, acc15, h15]
  have acc17 : noiseStep^[4096 * 17] 0x1FFFF = 90023 := by
    have he : 4096 * 17 = 4096 + 4096 * 16 := by norm_num
    rw [he, Function.iterate_add_apply, acc16, h16]
  have acc18 : noiseStep^[4096 * 18] 0x1FFFF = 18831 := by
    have he : 4096 * 18 = 4096 + 4096 * 17 := by norm_num
    rw [he, Function.iterate_add_apply, acc17, h17]
  have acc19 : noiseStep^[4096 * 19] 0x1FFFF = 129862 := by
    have he : 4096 * 19 = 4096 + 4096 * 18 := by norm_num
    rw [he, Function.iterate_add_apply, acc18, h18]
  have acc20 : noiseStep^[4096 * 20] 0x1FFFF = 62432 := by
    have he : 4096 * 20 = 4096 + 4096 * 19 := by norm_num
    rw [he, Function.iterate_add_apply, acc19, h19]
  have acc21 : noiseStep^[4096 * 21] 0x1FFFF = 72099 := by
    have he : 4096 * 21 = 4096 + 4096 * 20 := by norm_num
    rw [he, Function.iterate_add_apply, acc20, h20]
  have acc22 : noiseStep^[4096 * 22] 0x1FFFF = 23495 := by
    have he : 4096 * 22 = 4096 + 4096 * 21 := by norm_num
    rw [he, Function.iterate_add_apply, acc21, h21]
  have acc23 : noiseStep^[4096 * 23] 0x1FFFF = 107012 := by
    have he : 4096 * 23 = 4096 + 4096 * 22 := by norm_num
    rw [he, Function.iterate_add_apply, acc22, h22]
  have acc24 : noiseStep^[4096 * 24] 0x1FFFF = 12415 := by
    have he : 4096 * 24 = 4096 + 4096 * 23 := by norm_num
    rw [he, Function.iterate_add_apply, acc23, h23]
  have acc25 : noiseStep^[4096 * 25] 0x1FFFF = 30615 := by
    have he : 4096 * 25 = 4096 + 4096 * 24 := by norm_num
    rw [he, Function.iterate_add_apply, acc24, h24]
  have acc26 : noiseStep^[4096 * 26] 0x1FFFF = 122371 := by
    have he : 4096 * 26 = 4096 + 4096 * 25 := by norm_num
    rw [he, Function.iterate_add_apply, acc25, h25]
  have acc27 : noiseStep^[4096 * 27] 0x1FFFF = 116897 := by
    have he : 4096 * 27 = 4096 + 4096 * 26 := by norm_num
    rw [he, Function.iterate_add_apply, acc26, h26]
  have acc28 : noiseStep^[4096 * 28] 0x1FFFF = 17400 := by
    have he : 4096 * 28 = 4096 + 4096 * 27 := by norm_num
    rw [he, Function.iterate_add_apply, acc27, h27]
  have acc29 : noiseStep^[4096 * 29] 0x1FFFF = 39375 := by
    have he : 4096 * 29 = 4096 + 4096 * 28 := by norm_num
    rw [he, Function.iterate_add_apply, acc28, h28]
  have acc30 : noiseStep^[4096 * 30] 0x1FFFF = 122750 := by
    have he : 4096 * 30 = 4096 + 4096 * 29 := by norm_num
    rw [he, Function.iterate_add_apply, acc29, h29]
  have acc31 : noiseStep^[4096 * 31] 0x1FFFF = 103367 := by
    have he : 4096 * 31 = 4096 + 4096 * 30 := by norm_num
    rw [he, Function.iterate_add_apply, acc30, h30]
  have hfin : (2 ^ 17 - 1 : Nat) = 4095 + 4096 * 31 := by norm_num
  rw [hfin, Function.iterate_add_apply, acc31, h31]

/-! ## C7: table cardinalities -/

/-- **C7 counterexample.** The chirp table has 52 signed entries, not 53 as
claimed: its length is 52. -/
theorem chirp_table_length_counterexample :
    CHIRP_TABLE_SIGNED.length = 52 ∧ ¬ CHIRP_TABLE_SIGNED.length = 53 ∧
    CHIRP_TABLE.length = 52 := by decide

/-- **C7 (amended).** The constant tables have exactly these cardinalities:
energy 16, pitch 64, K-tables [32,32,16,16,16,16,16,8,8,8], chirp **52**
signed entries, interpolation shifts [0,3,3,3,2,2,1,1], sample rate 8000,
200 samples per frame, 8 interpolation periods per frame, 25 samples per
interpolation period. -/
theorem constant_tables_cardinalities :
    ENERGY_TABLE.length = 16 ∧
    PITCH_TABLE.length = 64 ∧
    K_TABLES.map List.length = [32, 32, 16, 16, 16, 16, 16, 8, 8, 8] ∧
    CHIRP_TABLE_SIGNED.length = 52 ∧
    INTERP_COEFF = [0, 3, 3, 3, 2, 2, 1, 1] ∧
    SAMPLE_RATE = 8000 ∧ SAMPLES_PER_FRAME = 200 ∧
    INTERP_PERIODS = 8 ∧ SAMPLES_PER_INTERP = 25 := by decide

/-! ## C3: the noise LFSR -/

/-- **C3.** The noise update is `reg' = (reg >> 1) | (((reg ^ (reg >> 3)) & 1) << 16)`
(`noiseStep`); `generateNoise` applies it and emits `+1` when the new low bit
is 1, else `-1`, and `generateExcitation` at pitch 0 scales that by 64; from
the seed `0x1FFFF` the register first returns to the seed after exactly
`2^17 - 1` updates, and no iterate is ever 0. -/
theorem noise_register_update_and_period :
    (∀ r : Nat, noiseStep r = (r >>> 1) ||| (((r ^^^ (r >>> 3)) &&& 1) <<< 16)) ∧
    (∀ s : TMS5220, generateNoise s =
      ((if noiseStep s.noiseRegister &&& 1 = 1 then (1 : Int) else -1),
        { s with noiseRegister := noiseStep s.noiseRegister })) ∧
    (∀ s : TMS5220, generateExcitation s 0 =
      ((if noiseStep s.noiseRegister &&& 1 = 1 then (1 : Int) else -1) * 64,
        { s with noiseRegister := noiseStep s.noiseRegister })) ∧
    noiseStep^[2 ^ 17 - 1] 0x1FFFF = 0x1FFFF ∧
    (∀ n, 0 < n → n < 2 ^ 17 - 1 → noiseStep^[n] 0x1FFFF ≠ 0x1FFFF) ∧
    (∀ n, noiseStep^[n] 0x1FFFF ≠ 0) := by
  refine ⟨fun r => rfl, fun s => rfl, fun s => rfl, noiseStep_iterate_full, ?_, ?_⟩
  · intro n hn0 hnlt h
    have hper : Function.IsPeriodicPt noiseStep n 0x1FFFF := h
    have hfull : Function.IsPeriodicPt noiseStep (2 ^ 17 - 1) 0x1FFFF :=
      noiseStep_iterate_full
    have hg := hper.gcd hfull
    have hprime : Nat.Prime (2 ^ 17 - 1) := by norm_num
    have hnd : ¬ (2 ^ 17 - 1 : Nat) ∣ n := by
      intro hd
      have := Nat.le_of_dvd hn0 hd
      omega
    have hco : Nat.gcd n (2 ^ 17 - 1) = 1 := by
      have hc := (Nat.Prime.coprime_iff_not_dvd hprime).mpr hnd
      rw [Nat.gcd_comm]
      exact hc
    rw [hco] at hg
    have hone : noiseStep 0x1FFFF = 0x1FFFF := by
      have := hg
      simpa [Function.IsPeriodicPt, Function.IsFixedPt] using this
    exact absurd hone (by decide)
  · intro n h
    have hfull : Function.IsPeriodicPt noiseStep (2 ^ 17 - 1) 0x1FFFF :=
      noiseStep_iterate_full
    have hmul : Function.IsPeriodicPt noiseStep ((2 ^ 17 - 1) * (n + 1)) 0x1FFFF :=
      hfull.mul_const (n + 1)
    have hmeq : noiseStep^[(2 ^ 17 - 1) * (n + 1)] 0x1FFFF = 0x1FFFF := hmul
    have hle : n ≤ (2 ^ 17 - 1) * (n + 1) := by
      have hm : 1 * (n + 1) ≤ (2 ^ 17 - 1) * (n + 1) :=
        Nat.mul_le_mul_right _ (by norm_num)
      omega
    have hsplit : (2 ^ 17 - 1) * (n + 1) = ((2 ^ 17 - 1) * (n + 1) - n) + n := by omega
    have h0 : noiseStep 0 = 0 := by decide
    have hz : noiseStep^[(2 ^ 17 - 1) * (n + 1)] 0x1FFFF = 0 := by
      rw [hsplit, Function.iterate_add_apply, h]
      exact Function.iterate_fixed h0 _
    have : (0x1FFFF : Nat) = 0 := hmeq.symm.trans hz
    exact absurd this (by decide)

/-- **C3 witness.** The period and no-zero conjuncts applied at concrete
iteration counts. -/
theorem noise_register_update_and_period_witness :
    noiseStep^[1] 0x1FFFF ≠ 0x1FFFF ∧ noiseStep^[3] 0x1FFFF ≠ 0 :=
  ⟨noise_register_update_and_period.2.2.2.2.1 1 (by decide) (by decide),
   noise_register_update_and_period.2.2.2.2.2 3⟩

/-! ## C10 helpers -/

theorem jsRound_intCast (n : Int) : jsRound ((n : ℚ)) = n := by
  rw [jsRound_eq_floor, Int.floor_int_add]
  norm_num

theorem jsRound_intCast_mul_four (n : Int) : jsRound ((n : ℚ) * 4) = 4 * n := by
  have h : ((n : ℚ) * 4) = ((4 * n : Int) : ℚ) := by push_cast; ring
  rw [h, jsRound_intCast]

theorem processTMS5220_range (d : List ℚ) (exc en : Int) (k : List Int) :
    -8192 ≤ (processTMS5220 d exc en k).1 ∧ (processTMS5220 d exc en k).1 ≤ 8191 := by
  unfold processTMS5220
  refine ⟨le_max_left _ _, max_le (by norm_num) (min_le_left _ _)⟩

/-- **C10.** Lattice output is clamped to `[-8192, 8191]`; the engine scales
by 4, so every `generateSample` value lies in `[-32768, 32764]` (the positive
16-bit bound 32767 is never attained), is a multiple of 4, and is 0 when not
speaking. -/
theorem generateSample_range (s : TMS5220) :
    -32768 ≤ (generateSample s).1 ∧ (generateSample s).1 ≤ 32764 ∧
    (4 : Int) ∣ (generateSample s).1 ∧
    (s.speaking = false → (generateSample s).1 = 0) := by
  by_cases hs : s.speaking = false
  · simp [generateSample, hs]
  · have hgen : (generateSample s).1 = 0 ∨
        ∃ y : Int, -8192 ≤ y ∧ y ≤ 8191 ∧
          (generateSample s).1 = max (-32768) (min 32767 (jsRound ((y : ℚ) * 4))) := by
      unfold generateSample
      rw [if_neg hs]
      dsimp only
      obtain ⟨hlo, hhi⟩ := processTMS5220_range
        ((generateExcitation s (jsRound ((interpolate s.currentPitch s.targetPitch s.interpCount : ℚ)))).2.delay)
        ((generateExcitation s (jsRound ((interpolate s.currentPitch s.targetPitch s.interpCount : ℚ)))).1)
        (interpolate s.currentEnergy s.targetEnergy s.interpCount)
        ((List.range 10).map
          (fun i => interpolate (s.currentK.getD i 0) (s.targetK.getD i 0) s.interpCount))
      split
      · split
        · split
          · right; exact ⟨_, hlo, hhi, rfl⟩
          · left; rfl
        · right; exact ⟨_, hlo, hhi, rfl⟩
      · right; exact ⟨_, hlo, hhi, rfl⟩
    rcases hgen with h0 | ⟨y, hlo, hhi, hv⟩
    · rw [h0]
      exact ⟨by norm_num, by norm_num, ⟨0, by norm_num⟩, fun h => rfl⟩
    · rw [hv, jsRound_intCast_mul_four]
      have hmin : min 32767 (4 * y) = 4 * y := min_eq_right (by omega)
      have hmax : max (-32768) (4 * y) = 4 * y := max_eq_right (by omega)
      rw [hmin, hmax]
      exact ⟨by omega, by omega, dvd_mul_right 4 y, fun h => absurd h hs⟩

/-- **C10 witness.** The not-speaking clause at the constructor state. -/
theorem generateSample_range_witness : (generateSample initTMS).1 = 0 :=
  (generateSample_range initTMS).2.2.2 rfl

/-! ## C4: determinism of the frame path -/

/-- `reset` restores the constructor state regardless of the prior state. -/
theorem reset_eq_initTMS (s : TMS5220) : s.reset = initTMS := rfl

/-- **C4.** Two engines, whatever their prior states, fed the same frame
sequence through `synthesizeFromFrames` produce identical sample
sequences (the function resets the engine and is a pure function of the
frames). -/
theorem synthesizeFromFrames_deterministic (s1 s2 : TMS5220) (frames : List FrameP) :
    (synthesizeFromFrames s1 frames).1 = (synthesizeFromFrames s2 frames).1 := rfl

/-! ## C5: the safety cap of `synthesize` -/

theorem synthLoop_length_le (fuel : Nat) : ∀ s : TMS5220,
    (synthLoop fuel s).1.length ≤ fuel ∧
    ((synthLoop fuel s).2.speaking = true → (synthLoop fuel s).1.length = fuel) := by
  induction fuel with
  | zero => exact fun s => ⟨Nat.le_refl 0, fun _ => rfl⟩
  | succ fuel ih =>
    intro s
    by_cases hs : s.speaking
    · obtain ⟨h1, h2⟩ := ih (generateSample s).2
      simp only [synthLoop, hs, if_true, List.length_cons]
      exact ⟨by omega, fun hsp => by rw [h2 hsp]⟩
    · simp only [synthLoop, hs, if_false]
      exact ⟨Nat.zero_le _, fun hsp => absurd hsp hs⟩

theorem applyFade_length (xs : List Int) : (applyFade xs).length = xs.length := by
  simp [applyFade]

/-- **C5.** `synthesize` terminates with at most 240,000 samples
(30 s × 8,000 Hz), and if `speaking` is still set afterwards then the
safety cap was hit exactly (240,000 samples were emitted). -/
theorem synthesize_sample_cap (s : TMS5220) (data : List Nat) :
    (synthesize s data).1.length ≤ 240000 ∧
    ((synthesize s data).2.speaking = true → (synthesize s data).1.length = 240000) := by
  obtain ⟨h1, h2⟩ := synthLoop_length_le (SAMPLE_RATE * 30) (loadSpeechData s.reset data)
  have hcap : SAMPLE_RATE * 30 = 240000 := rfl
  have hfst : (synthesize s data).1 =
      applyFade (synthLoop (SAMPLE_RATE * 30) (loadSpeechData s.reset data)).1 := rfl
  have hsnd : (synthesize s data).2 =
      (synthLoop (SAMPLE_RATE * 30) (loadSpeechData s.reset data)).2 := rfl
  constructor
  · rw [hfst, applyFade_length]
    omega
  · intro hsp
    rw [hsnd] at hsp
    rw [hfst, applyFade_length]
    have := h2 hsp
    omega

/-- **C5 witness.** The cap statement applied to the stop-only stream. -/
theorem synthesize_sample_cap_witness :
    (synthesize initTMS [15]).1.length ≤ 240000 ∧
    ((synthesize initTMS [15]).2.speaking = true →
      (synthesize initTMS [15]).1.length = 240000) :=
  synthesize_sample_cap initTMS [15]

/-! ## C6: repeat frames keep the K targets -/

theorem engineReadBits_targetK (s : TMS5220) (n : Nat) :
    (engineReadBits s n).2.targetK = s.targetK := by
  unfold engineReadBits
  cases s.frameData with
  | none => rfl
  | some data =>
    dsimp only
    split
    · rfl
    · rfl

theorem engineReadBits_targetEnergy (s : TMS5220) (n : Nat) :
    (engineReadBits s n).2.targetEnergy = s.targetEnergy := by
  unfold engineReadBits
  cases s.frameData with
  | none => rfl
  | some data =>
    dsimp only
    split
    · rfl
    · rfl

/-- **C6.** When `readNextFrame` decodes a frame whose repeat flag is set
(energy index in 1..14, repeat bit 1), the ten K targets are left unchanged
from the previous frame; only the energy and pitch targets are updated, and
the interpolation cursor (`interpCount`/`sampleCount`) restarts. -/
theorem readNextFrame_repeat (s s1 s2 s3 : TMS5220) (e pi' : Nat)
    (h4 : engineReadBits
      { s with
          currentEnergy := s.targetEnergy, currentPitch := s.targetPitch,
          currentK := s.targetK } 4 = (e, s1))
    (he15 : e ≠ 15) (he0 : e ≠ 0)
    (h1 : engineReadBits { s1 with targetEnergy := ENERGY_TABLE.getD e 0 } 1 = (1, s2))
    (h6 : engineReadBits s2 6 = (pi', s3)) :
    readNextFrame s =
      (true,
        { s3 with targetPitch := PITCH_TABLE.getD pi' 0, interpCount := 0, sampleCount := 0 }) ∧
    (readNextFrame s).2.targetK = s.targetK ∧
    (readNextFrame s).2.targetEnergy = ENERGY_TABLE.getD e 0 ∧
    (readNextFrame s).2.targetPitch = PITCH_TABLE.getD pi' 0 ∧
    (readNextFrame s).2.interpCount = 0 ∧
    (readNextFrame s).2.sampleCount = 0 := by
  have hK3 : s3.targetK = s2.targetK := by
    have h := engineReadBits_targetK s2 6
    rw [h6] at h
    exact h
  have hK2 : s2.targetK = s1.targetK := by
    have h := engineReadBits_targetK { s1 with targetEnergy := ENERGY_TABLE.getD e 0 } 1
    rw [h1] at h
    exact h
  have hK1 : s1.targetK = s.targetK := by
    have h := engineReadBits_targetK
      { s with
          currentEnergy := s.targetEnergy, currentPitch := s.targetPitch,
          currentK := s.targetK } 4
    rw [h4] at h
    exact h
  have hE3 : s3.targetEnergy = s2.targetEnergy := by
    have h := engineReadBits_targetEnergy s2 6
    rw [h6] at h
    exact h
  have hE2 : s2.targetEnergy = ENERGY_TABLE.getD e 0 := by
    have h := engineReadBits_targetEnergy { s1 with targetEnergy := ENERGY_TABLE.getD e 0 } 1
    rw [h1] at h
    exact h
  have hmain : readNextFrame s =
      (true,
        { s3 with targetPitch := PITCH_TABLE.getD pi' 0, interpCount := 0, sampleCount := 0 }) := by
    unfold readNextFrame
    dsimp only
    rw [h4]
    dsimp only
    rw [if_neg he15, if_neg he0, h1]
    dsimp only
    rw [h6]
    dsimp only
    rw [if_pos (by decide : (1 : Nat) ≠ 0)]
  refine ⟨hmain, ?_, ?_, ?_, ?_, ?_⟩
  · rw [hmain]
    exact hK3.trans (hK2.trans hK1)
  · rw [hmain]
    exact hE3.trans hE2
  · rw [hmain]
  · rw [hmain]
  · rw [hmain]

/-- **C6 witness.** A concrete repeat frame (`energy 7, repeat, pitch 0`
followed by a stop code): the K targets, all zero before the frame, are
unchanged, and the cursor restarts. -/
theorem readNextFrame_repeat_witness :
    (readNextFrame
      { initTMS with frameData := some [23, 120], speaking := true, talkStatus := true
      }).2.targetK = List.replicate 10 0 ∧
    (readNextFrame
      { initTMS with frameData := some [23, 120], speaking := true, talkStatus := true
      }).2.interpCount = 0 := by
  have h := readNextFrame_repeat
    { initTMS with frameData := some [23, 120], speaking := true, talkStatus := true }
    _ _ _ 7 0 rfl (by decide) (by decide) rfl rfl
  exact ⟨h.2.1.trans rfl, h.2.2.2.2.1⟩

/-! ## C8: behaviour on truncated bitstreams -/

theorem bitAt_past_end (data : List Nat) (q : Nat) (h : data.length * 8 ≤ q) :
    bitAt data q = 0 := by
  unfold bitAt
  rw [dif_neg]
  intro hlt
  have : q / 8 * 8 ≤ q := Nat.div_mul_le_self q 8
  have : data.length * 8 ≤ q / 8 * 8 := h.trans (by omega)
  omega

theorem readBitsVal_past_end (data : List Nat) (p w : Nat)
    (h : data.length * 8 ≤ p) : readBitsVal data p w = 0 := by
  unfold readBitsVal
  induction w with
  | zero => rfl
  | succ w ih =>
    rw [List.range_succ, List.foldl_append, ih, List.foldl_cons, List.foldl_nil,
      bitAt_past_end data (p + w) (by omega), Nat.zero_shiftLeft, Nat.zero_or]

/-- **C8 counterexample.** On the truncated stream `[0x01]` (a speech frame
whose fields run past the end of the data) the decoder completes the frame
with zero bits and emits it; it appends no Stop frame and surfaces no
condition: the result is a single unvoiced frame and contains no Stop. -/
theorem decode_truncated_counterexample :
    decodeFrames [1] = [mkUnvoiced 1 0 [0, 0, 0, 0]] ∧
    decodeFrames [1] ≠ [stopFrame] ∧
    ¬ stopFrame ∈ decodeFrames [1] := by
  have h29 : decodeLoop [1] 29 = [] := by
    rw [decodeLoop]
    norm_num
  have h0 : decodeFrames [1] = [mkUnvoiced 1 0 [0, 0, 0, 0]] := by
    rw [decodeFrames, decodeLoop]
    rw [dif_pos (by norm_num : (0 : Nat) < [1].length * 8)]
    have e1 : readBitsVal [1] 0 4 = 1 := by decide
    have e2 : readBitsVal [1] 4 1 = 0 := by decide
    have e3 : readBitsVal [1] 5 6 = 0 := by decide
    have e4 : readSeq [1] 11 (K_BITS.take 4) = [0, 0, 0, 0] := by decide
    dsimp only
    rw [e1, e2, e3, e4, if_neg (by decide : ¬ (1 : Nat) = 15),
      if_neg (by decide : ¬ (1 : Nat) = 0), if_neg (by decide : ¬ (0 : Nat) = 1),
      if_pos rfl, h29]
  refine ⟨h0, ?_, ?_⟩
  · rw [h0]
    decide
  · rw [h0]
    decide

/-- **C8 (amended).** If the bit position runs past the end of the data, all
further bit reads return 0 (missing bits read as zero — a frame cut mid-field
is completed with zero bits), and the decode loop stops emitting frames
there: no Stop frame is fabricated and no error condition exists in the
implementation. -/
theorem decode_past_end (data : List Nat) (p w : Nat)
    (h : data.length * 8 ≤ p) :
    readBitsVal data p w = 0 ∧ decodeLoop data p = [] := by
  refine ⟨readBitsVal_past_end data p w h, ?_⟩
  rw [decodeLoop]
  rw [dif_neg (by omega)]

/-- **C8 witness.** Past the single byte of `[1]`, reads give 0 and decoding
stops. -/
theorem decode_past_end_witness :
    readBitsVal [1] 8 4 = 0 ∧ decodeLoop [1] 8 = [] :=
  decode_past_end [1] 8 4 (by decide)

/-! ## C9: the end fade of `synthesize` -/

theorem applyFade_getD (xs : List Int) (j : Nat) :
    (j < xs.length - min 100 xs.length →
      (applyFade xs).getD j 0 = xs.getD j 0) ∧
    (xs.length - min 100 xs.length ≤ j → j < xs.length →
      (applyFade xs).getD j 0 =
        jsRound ((xs.getD j 0 : ℚ) *
          ((min 100 xs.length - (j - (xs.length - min 100 xs.length)) : Nat) : ℚ) /
          ((min 100 xs.length : Nat) : ℚ))) := by
  have hlen : (applyFade xs).length = xs.length := by simp [applyFade]
  constructor
  · intro hj
    have hjlen : j < xs.length := by omega
    have hj2 : j < (applyFade xs).length := by omega
    rw [List.getD_eq_getElem _ _ hj2, List.getD_eq_getElem _ _ hjlen]
    unfold applyFade
    simp only [List.getElem_zipWith, List.getElem_range]
    rw [if_neg (by omega)]
  · intro hj1 hj2
    have hj3 : j < (applyFade xs).length := by omega
    rw [List.getD_eq_getElem _ _ hj3, List.getD_eq_getElem _ _ hj2]
    unfold applyFade
    simp only [List.getElem_zipWith, List.getElem_range]
    rw [if_pos (by omega)]

set_option maxRecDepth 10000 in
/-- **C9 counterexample.** `synthesize` does *not* return the per-sample loop
output unmodified: on the stream `[0x17, 0x78]` (one repeat frame, then a
stop code) the faded output differs from the raw loop output. -/
theorem synthesize_fade_counterexample :
    (synthesize initTMS [23, 120]).1 ≠ (synthesizeRaw initTMS [23, 120]).1 := by
  with_unfolding_all decide

/-- **C9 (amended).** `synthesize` applies a linear end fade inside the core:
its output is the per-sample loop output with the last `min(100, n)` samples
scaled by `(fadeLength - i) / fadeLength` and re-rounded; samples before the
fade window are returned unmodified. -/
theorem synthesize_applies_end_fade (s : TMS5220) (data : List Nat) (j : Nat) :
    (synthesize s data).1 = applyFade (synthesizeRaw s data).1 ∧
    (synthesize s data).1.length = (synthesizeRaw s data).1.length ∧
    (j < (synthesizeRaw s data).1.length - min 100 (synthesizeRaw s data).1.length →
      (synthesize s data).1.getD j 0 = (synthesizeRaw s data).1.getD j 0) ∧
    ((synthesizeRaw s data).1.length - min 100 (synthesizeRaw s data).1.length ≤ j →
     j < (synthesizeRaw s data).1.length →
      (synthesize s data).1.getD j 0 =
        jsRound (((synthesizeRaw s data).1.getD j 0 : ℚ) *
          ((min 100 (synthesizeRaw s data).1.length -
            (j - ((synthesizeRaw s data).1.length -
                  min 100 (synthesizeRaw s data).1.length)) : Nat) : ℚ) /
          ((min 100 (synthesizeRaw s data).1.length : Nat) : ℚ))) := by
  obtain ⟨h1, h2⟩ := applyFade_getD (synthesizeRaw s data).1 j
  refine ⟨rfl, ?_, h1, h2⟩
  show (applyFade (synthesizeRaw s data).1).length = _
  simp [applyFade]

set_option maxRecDepth 10000 in
/-- **C9 witness.** On the silence-then-stop stream `[0xF0]` the sample at
index 50 (before the fade window of the 200-sample output) is unmodified. -/
theorem synthesize_applies_end_fade_witness :
    (synthesize initTMS [240]).1.getD 50 0 = (synthesizeRaw initTMS [240]).1.getD 50 0 :=
  (synthesize_applies_end_fade initTMS [240] 50).2.2.1 (by with_unfolding_all decide)

/-! ## Bit-level lemmas connecting the byte reader to the flat bit stream -/

theorem bitAt_le_one (data : List Nat) (p : Nat) : bitAt data p ≤ 1 := by
  unfold bitAt
  split
  · rw [Nat.and_one_is_mod]
    omega
  · exact Nat.zero_le 1

theorem or_shiftLeft_eq_add {b w : Nat} (hb : b ≤ 1) :
    ∀ {a : Nat}, a < 2 ^ w → a ||| (b <<< w) = a + b * 2 ^ w := by
  induction w with
  | zero =>
    intro a ha
    interval_cases a
    rw [Nat.shiftLeft_zero, Nat.zero_or, pow_zero, mul_one, Nat.zero_add]
  | succ w ih =>
    intro a ha
    have hshift : b <<< (w + 1) = 2 * (b <<< w) := Nat.shiftLeft_succ b w
    have hmod : (a ||| b <<< (w + 1)) % 2 = a % 2 := by
      have hc : (b <<< (w + 1)) % 2 = 0 := by omega
      rcases Nat.or_mod_two_eq_one (a := a) (b := b <<< (w + 1)) with ⟨h1, h2⟩
      by_cases hA : a % 2 = 1
      · exact (h2 (Or.inl hA)).trans hA.symm
      · have : ¬ (a ||| b <<< (w + 1)) % 2 = 1 := fun hh => by
          rcases h1 hh with h | h
          · exact hA h
          · omega
        omega
    have hdiv : (a ||| b <<< (w + 1)) / 2 = a / 2 + b * 2 ^ w := by
      rw [Nat.or_div_two]
      have : b <<< (w + 1) / 2 = b <<< w := by omega
      rw [this]
      exact ih (by omega)
    have := Nat.div_add_mod (a ||| b <<< (w + 1)) 2
    have hpow : (2 : Nat) ^ (w + 1) = 2 * 2 ^ w := by ring
    omega

theorem foldl_orShift (g : Nat → Nat) (hg : ∀ i, g i ≤ 1) :
    ∀ w, ((List.range w).foldl (fun v i => v ||| (g i <<< i)) 0 < 2 ^ w) ∧
      ((List.range (w + 1)).foldl (fun v i => v ||| (g i <<< i)) 0 =
        (List.range w).foldl (fun v i => v ||| (g i <<< i)) 0 + g w * 2 ^ w) := by
  intro w
  induction w with
  | zero =>
    refine ⟨by simp, ?_⟩
    simp [List.range_succ, Nat.shiftLeft_zero, Nat.zero_or]
  | succ w ih =>
    have hstep : (List.range (w + 2)).foldl (fun v i => v ||| (g i <<< i)) 0 =
        (List.range (w + 1)).foldl (fun v i => v ||| (g i <<< i)) 0 + g (w + 1) * 2 ^ (w + 1) := by
      rw [List.range_succ, List.foldl_append, List.foldl_cons, List.foldl_nil]
      have hlt : (List.range (w + 1)).foldl (fun v i => v ||| (g i <<< i)) 0 < 2 ^ (w + 1) := by
        rw [ih.2]
        have h1 := ih.1
        have hpow : (2 : Nat) ^ (w + 1) = 2 * 2 ^ w := by ring
        rcases Nat.le_one_iff_eq_zero_or_eq_one.mp (hg w) with h | h <;> rw [h] <;> omega
      exact or_shiftLeft_eq_add (hg (w + 1)) hlt
    refine ⟨?_, hstep⟩
    rw [ih.2]
    have h1 := ih.1
    have hpow : (2 : Nat) ^ (w + 1) = 2 * 2 ^ w := by ring
    rcases Nat.le_one_iff_eq_zero_or_eq_one.mp (hg w) with h | h <;> rw [h] <;> omega

theorem readBitsVal_lt (data : List Nat) (p w : Nat) : readBitsVal data p w < 2 ^ w :=
  (foldl_orShift (fun i => bitAt data (p + i)) (fun i => bitAt_le_one data (p + i)) w).1

theorem readBitsVal_succ (data : List Nat) (p w : Nat) :
    readBitsVal data p (w + 1) = readBitsVal data p w + bitAt data (p + w) * 2 ^ w :=
  (foldl_orShift (fun i => bitAt data (p + i)) (fun i => bitAt_le_one data (p + i)) w).2

theorem readBitsVal_low (data : List Nat) (p : Nat) : ∀ w : Nat,
    readBitsVal data p (w + 1) = bitAt data p + 2 * readBitsVal data (p + 1) w := by
  intro w
  induction w with
  | zero =>
    rw [readBitsVal_succ data p 0]
    show 0 + bitAt data (p + 0) * 2 ^ 0 = bitAt data p + 2 * 0
    simp
  | succ w ih =>
    rw [readBitsVal_succ data p (w + 1), ih, readBitsVal_succ data (p + 1) w]
    have he : p + (w + 1) = p + 1 + w := by omega
    rw [he]
    ring

theorem bytesToBits_nil : bytesToBits [] = [] := rfl

theorem bytesToBits_cons (b : Nat) (rest : List Nat) :
    bytesToBits (b :: rest) = byteBits b ++ bytesToBits rest := by
  simp [bytesToBits]

theorem byteBits_length (b : Nat) : (byteBits b).length = 8 := by
  simp [byteBits]

theorem bytesToBits_length (data : List Nat) :
    (bytesToBits data).length = 8 * data.length := by
  induction data with
  | nil => rfl
  | cons b rest ih =>
    rw [bytesToBits_cons, List.length_append, byteBits_length, ih, List.length_cons]
    ring

theorem bitAt_cons_ge (b : Nat) (rest : List Nat) (p : Nat) (hp : 8 ≤ p) :
    bitAt (b :: rest) p = bitAt rest (p - 8) := by
  have hdiv : p / 8 = (p - 8) / 8 + 1 := by omega
  have hmod : p % 8 = (p - 8) % 8 := by omega
  unfold bitAt
  by_cases hlt : (p - 8) / 8 < rest.length
  · rw [dif_pos hlt, dif_pos (by simp only [List.length_cons]; omega)]
    have hidx : p / 8 = (p - 8) / 8 + 1 := by omega
    have hget : (b :: rest).get ⟨p / 8, by simp only [List.length_cons]; omega⟩ =
        rest.get ⟨(p - 8) / 8, hlt⟩ := by
      simp only [List.get_eq_getElem, hidx]
      exact List.getElem_cons_succ b rest ((p - 8) / 8) (by simp only [List.length_cons]; omega)
    rw [hget, hmod]
  · rw [dif_neg hlt, dif_neg (by simp only [List.length_cons]; omega)]

theorem bytesToBits_getD (data : List Nat) : ∀ p : Nat,
    (bytesToBits data).getD p 0 = bitAt data p := by
  induction data with
  | nil =>
    intro p
    rw [bytesToBits_nil]
    unfold bitAt
    rw [dif_neg (by simp)]
    rfl
  | cons b rest ih =>
    intro p
    rw [bytesToBits_cons]
    by_cases hp : p < 8
    · rw [List.getD_append _ _ _ _ (by rw [byteBits_length]; omega)]
      unfold byteBits
      rw [List.getD_eq_getElem _ _ (by simp; omega)]
      simp only [List.getElem_map, List.getElem_range]
      unfold bitAt
      rw [dif_pos (by simp only [List.length_cons]; omega : p / 8 < (b :: rest).length)]
      have h0 : p / 8 = 0 := by omega
      have h1 : p % 8 = p := by omega
      simp only [List.get_eq_getElem, h0, h1, List.getElem_cons_zero]
    · rw [List.getD_append_right _ _ _ _ (by rw [byteBits_length]; omega),
        byteBits_length, ih (p - 8), bitAt_cons_ge b rest p (by omega)]

theorem readBitsVal_eq_fieldVal (data : List Nat) : ∀ (w p : Nat),
    readBitsVal data p w = fieldVal (((bytesToBits data).drop p).take w) := by
  intro w
  induction w with
  | zero => intro p; rfl
  | succ w ih =>
    intro p
    rw [readBitsVal_low]
    by_cases hp : p < (bytesToBits data).length
    · rw [List.drop_eq_getElem_cons hp, List.take_succ_cons]
      have hbit : (bytesToBits data)[p] = bitAt data p := by
        rw [← List.getD_eq_getElem _ 0 hp, bytesToBits_getD]
      rw [fieldVal, List.foldr_cons, hbit, ih (p + 1)]
      rfl
    · rw [List.drop_eq_nil_of_le (by omega), List.take_nil]
      have hlen : data.length * 8 ≤ p := by
        rw [bytesToBits_length] at hp
        omega
      rw [bitAt_past_end data p hlen, readBitsVal_past_end data (p + 1) w (by omega)]
      rfl

/-! ## The decoder loop equals the spec-side parse -/

theorem readFields_eq_readSeq (data : List Nat) (ws : List Nat) : ∀ p : Nat,
    (readFields ws ((bytesToBits data).drop p)).1 = readSeq data p ws ∧
    (readFields ws ((bytesToBits data).drop p)).2 =
      (bytesToBits data).drop (p + ws.sum) := by
  induction ws with
  | nil => intro p; exact ⟨rfl, by simp [readFields]⟩
  | cons w ws ih =>
    intro p
    obtain ⟨ih1, ih2⟩ := ih (p + w)
    constructor
    · show fieldVal (((bytesToBits data).drop p).take w) ::
        (readFields ws (((bytesToBits data).drop p).drop w)).1 = readSeq data p (w :: ws)
      rw [List.drop_drop, ih1, ← readBitsVal_eq_fieldVal]
      rfl
    · show (readFields ws (((bytesToBits data).drop p).drop w)).2 = _
      rw [List.drop_drop, ih2, List.sum_cons]
      congr 1
      omega

theorem drop_bytesToBits_ne_nil (data : List Nat) (p : Nat)
    (h : p < data.length * 8) : (bytesToBits data).drop p ≠ [] := by
  apply List.ne_nil_of_length_pos
  rw [List.length_drop, bytesToBits_length]
  omega

/-- Every step of the source decoder loop agrees with the spec-side parse of
the remaining bit stream. -/
theorem decodeLoop_eq_specDecode (data : List Nat) : ∀ p : Nat,
    decodeLoop data p = specDecode ((bytesToBits data).drop p) := by
  have H : ∀ m : Nat, ∀ p : Nat, data.length * 8 - p = m →
      decodeLoop data p = specDecode ((bytesToBits data).drop p) := by
    intro m
    induction m using Nat.strong_induction_on with
    | _ m ihm =>
      intro p hm
      by_cases hb : p < data.length * 8
      · rw [decodeLoop, dif_pos hb, specDecode,
          dif_neg (drop_bytesToBits_ne_nil data p hb)]
        dsimp only
        simp only [List.drop_drop]
        rw [← readBitsVal_eq_fieldVal]
        by_cases h15 : readBitsVal data p 4 = 15
        · rw [if_pos h15, if_pos h15]
        · rw [if_neg h15, if_neg h15]
          by_cases h0 : readBitsVal data p 4 = 0
          · rw [if_pos h0, if_pos h0,
              ihm (data.length * 8 - (p + 4)) (by omega) (p + 4) rfl]
          · rw [if_neg h0, if_neg h0]
            rw [← readBitsVal_eq_fieldVal, ← readBitsVal_eq_fieldVal]
            by_cases hrp : readBitsVal data (p + 4) 1 = 1
            · rw [if_pos hrp, if_pos hrp,
                ihm (data.length * 8 - (p + 11)) (by omega) (p + 11) rfl]
            · rw [if_neg hrp, if_neg hrp]
              obtain ⟨hf1, hf2⟩ := readFields_eq_readSeq data [5, 5, 4, 4] (p + 11)
              have hs4 : p + 11 + ([5, 5, 4, 4] : List Nat).sum = p + 29 := by
                norm_num
              rw [hs4] at hf2
              by_cases hpi : readBitsVal data (p + 5) 6 = 0
              · rw [if_pos hpi, if_pos hpi, hf1, hf2,
                  ihm (data.length * 8 - (p + 29)) (by omega) (p + 29) rfl]
                rfl
              · rw [if_neg hpi, if_neg hpi]
                obtain ⟨hg1, hg2⟩ := readFields_eq_readSeq data [4, 4, 4, 3, 3, 3] (p + 29)
                have hs6 : p + 29 + ([4, 4, 4, 3, 3, 3] : List Nat).sum = p + 50 := by
                  norm_num
                rw [hs6] at hg2
                rw [hf1, hf2, hg1, hg2,
                  ihm (data.length * 8 - (p + 50)) (by omega) (p + 50) rfl]
                rfl
      · rw [decodeLoop, dif_neg hb,
          List.drop_eq_nil_of_le (by rw [bytesToBits_length]; omega), specDecode]
        rw [dif_pos rfl]
  exact fun p => H (data.length * 8 - p) p rfl

/-- **C1.** The source frame decoder reads the stream exactly as the spec
describes: LSB-first within each byte, fields in the order energy(4) — with
15 terminating as Stop and 0 emitting Silence without further bits —
repeat(1), pitch(6), then K fields of widths 5,5,4,4 plus 4,4,4,3,3,3 when
the pitch index is nonzero, each field placing stream bit `i` at value bit
`i` (`decodeFrames` equals the spec-side parse `specDecode` of the flat
LSB-first bit stream). -/
theorem decodeFrames_eq_specDecode (data : List Nat) :
    decodeFrames data = specDecode (bytesToBits data) := by
  rw [decodeFrames, decodeLoop_eq_specDecode data 0, List.drop_zero]

/-! ## Encoder-side bit lemmas and the encode/decode round trip (C2) -/

theorem writeBits_length (v w : Nat) : (writeBits v w).length = w := by
  simp [writeBits]

theorem writeBits_cons (v w : Nat) :
    writeBits v (w + 1) = (v &&& 1) :: writeBits (v >>> 1) w := by
  unfold writeBits
  rw [List.range_succ_eq_map, List.map_cons, List.map_map]
  congr 1
  apply List.map_congr_left
  intro i _
  simp only [Function.comp_apply]
  rw [show Nat.succ i = 1 + i from by omega, Nat.shiftRight_add]

theorem writeBits_le_one (v w : Nat) : ∀ x ∈ writeBits v w, x ≤ 1 := by
  intro x hx
  unfold writeBits at hx
  obtain ⟨i, _, rfl⟩ := List.mem_map.mp hx
  rw [Nat.and_one_is_mod]
  omega

theorem fieldVal_writeBits (w : Nat) : ∀ v : Nat, fieldVal (writeBits v w) = v % 2 ^ w := by
  induction w with
  | zero =>
    intro v
    simp [writeBits, fieldVal, Nat.mod_one]
  | succ w ih =>
    intro v
    rw [writeBits_cons]
    show (v &&& 1) + 2 * fieldVal (writeBits (v >>> 1) w) = v % 2 ^ (w + 1)
    rw [ih (v >>> 1), Nat.and_one_is_mod]
    have h1 : v >>> 1 = v / 2 := rfl
    have h2 : v % (2 * 2 ^ w) = v % 2 + 2 * (v / 2 % 2 ^ w) := Nat.mod_mul
    have h3 : (2 : Nat) ^ (w + 1) = 2 * 2 ^ w := by ring
    rw [h1, h3, h2]

theorem foldl_orShift_low (g : Nat → Nat) (hg : ∀ i, g i ≤ 1) :
    ∀ w, (List.range (w + 1)).foldl (fun v i => v ||| (g i <<< i)) 0 =
      g 0 + 2 * (List.range w).foldl (fun v i => v ||| (g (i + 1) <<< i)) 0 := by
  intro w
  induction w with
  | zero => simp [List.range_succ, Nat.shiftLeft_zero, Nat.zero_or]
  | succ w ih =>
    rw [(foldl_orShift g hg (w + 1)).2, ih,
      (foldl_orShift (fun i => g (i + 1)) (fun i => hg (i + 1)) w).2]
    ring

theorem getD_le_one (l : List Nat) (hl : ∀ x ∈ l, x ≤ 1) (j : Nat) : l.getD j 0 ≤ 1 := by
  by_cases hj : j < l.length
  · rw [List.getD_eq_getElem _ _ hj]
    exact hl _ (List.getElem_mem hj)
  · rw [List.getD_eq_default _ _ (by omega)]
    omega

theorem fieldVal_eq_foldl (c : List Nat) (hc : ∀ x ∈ c, x ≤ 1) :
    fieldVal c = (List.range c.length).foldl (fun v j => v ||| (c.getD j 0 <<< j)) 0 := by
  induction c with
  | nil => rfl
  | cons b cs ih =>
    have hg : ∀ j, (b :: cs).getD j 0 ≤ 1 := getD_le_one _ hc
    rw [List.length_cons, foldl_orShift_low (fun j => (b :: cs).getD j 0) hg cs.length]
    simp only [List.getD_cons_succ, List.getD_cons_zero]
    rw [← ih (fun x hx => hc x (List.mem_cons_of_mem b hx))]
    rfl

theorem byteOfChunk_eq_fieldVal (c : List Nat) (hc : ∀ x ∈ c, x ≤ 1) :
    byteOfChunk c = fieldVal c :=
  (fieldVal_eq_foldl c hc).symm

theorem writeBits_zero_val (w : Nat) : writeBits 0 w = List.replicate w 0 := by
  unfold writeBits
  rw [List.eq_replicate_iff]
  refine ⟨by simp, ?_⟩
  intro x hx
  obtain ⟨i, _, rfl⟩ := List.mem_map.mp hx
  rw [Nat.zero_shiftRight, Nat.zero_and]

theorem writeBits_fieldVal_pad (c : List Nat) (hc : ∀ x ∈ c, x ≤ 1) : ∀ w, c.length ≤ w →
    writeBits (fieldVal c) w = c ++ List.replicate (w - c.length) 0 := by
  induction c with
  | nil =>
    intro w _
    show writeBits 0 w = [] ++ List.replicate (w - 0) 0
    rw [writeBits_zero_val, List.nil_append, Nat.sub_zero]
  | cons b cs ih =>
    intro w hw
    rw [List.length_cons] at hw
    obtain ⟨w', rfl⟩ : ∃ w', w = w' + 1 := ⟨w - 1, by omega⟩
    have hb : b ≤ 1 := hc b (List.mem_cons_self b cs)
    have hfv : fieldVal (b :: cs) = b + 2 * fieldVal cs := rfl
    have hand : (b + 2 * fieldVal cs) &&& 1 = b := by
      rw [Nat.and_one_is_mod]
      omega
    have hshift : (b + 2 * fieldVal cs) >>> 1 = fieldVal cs := by
      have : (b + 2 * fieldVal cs) >>> 1 = (b + 2 * fieldVal cs) / 2 := rfl
      rw [this]
      omega
    rw [hfv, writeBits_cons, hand, hshift,
      ih (fun x hx => hc x (List.mem_cons_of_mem b hx)) w' (by omega)]
    have hone : w' + 1 - (cs.length + 1) = w' - cs.length := by omega
    rw [List.length_cons, List.cons_append, hone]

theorem bytesToBits_bitsToBytes : ∀ (n : Nat) (bits : List Nat), bits.length = n →
    (∀ x ∈ bits, x ≤ 1) →
    bytesToBits (bitsToBytes bits) =
      bits ++ List.replicate ((8 - bits.length % 8) % 8) 0 := by
  intro n
  induction n using Nat.strong_induction_on with
  | _ n ih =>
    intro bits hn hb
    by_cases hne : bits = []
    · subst hne
      rw [bitsToBytes]
      simp [bytesToBits]
    · rw [bitsToBytes, dif_neg hne, bytesToBits_cons]
      have htake1 : ∀ x ∈ bits.take 8, x ≤ 1 := fun x hx => hb x (List.mem_of_mem_take hx)
      have hbyte : byteBits (byteOfChunk (bits.take 8)) =
          bits.take 8 ++ List.replicate (8 - (bits.take 8).length) 0 := by
        have h1 : byteBits (byteOfChunk (bits.take 8)) =
            writeBits (fieldVal (bits.take 8)) 8 := by
          rw [byteOfChunk_eq_fieldVal _ htake1]
          rfl
        rw [h1, writeBits_fieldVal_pad _ htake1 8 (by simp)]
      by_cases hlen : bits.length ≤ 8
      · have hdrop : bits.drop 8 = [] := List.drop_eq_nil_of_le hlen
        have htake : bits.take 8 = bits := List.take_of_length_le hlen
        rw [hdrop, hbyte, htake]
        show bits ++ List.replicate (8 - bits.length) 0 ++ bytesToBits (bitsToBytes []) = _
        have hbtb : bitsToBytes [] = [] := by
          rw [bitsToBytes]
          simp
        have hpos : 0 < bits.length := List.length_pos_of_ne_nil hne
        have hcnt : 8 - bits.length = (8 - bits.length % 8) % 8 := by omega
        rw [hbtb, bytesToBits_nil, List.append_nil, hcnt]
      · have hlt : (bits.drop 8).length < n := by
          rw [List.length_drop]
          omega
        rw [hbyte, ih (bits.drop 8).length hlt (bits.drop 8) rfl
          (fun x hx => hb x (List.mem_of_mem_drop hx))]
        rw [List.length_take, List.length_drop]
        have h8 : min 8 bits.length = 8 := by omega
        rw [h8]
        have hcnt : (8 - (bits.length - 8) % 8) % 8 = (8 - bits.length % 8) % 8 := by omega
        rw [hcnt]
        simp only [Nat.sub_self, List.replicate_zero, List.append_nil, List.append_assoc]
        rw [← List.append_assoc, List.take_append_drop]

theorem readFields_step (w : Nat) (ws : List Nat) (v : Nat) (rest : List Nat)
    (hv : v < 2 ^ w) :
    readFields (w :: ws) (writeBits v w ++ rest) =
      (v :: (readFields ws rest).1, (readFields ws rest).2) := by
  show (fieldVal ((writeBits v w ++ rest).take w) ::
      (readFields ws ((writeBits v w ++ rest).drop w)).1,
      (readFields ws ((writeBits v w ++ rest).drop w)).2) = _
  rw [List.take_left' (writeBits_length v w), List.drop_left' (writeBits_length v w),
    fieldVal_writeBits, Nat.mod_eq_of_lt hv]

theorem header_fields (e rp pi' : Nat) (tail : List Nat) (bits : List Nat)
    (hbits : bits = writeBits e 4 ++ (writeBits rp 1 ++ (writeBits pi' 6 ++ tail)))
    (he : e < 2 ^ 4) (hrp : rp < 2 ^ 1) (hpi : pi' < 2 ^ 6) :
    fieldVal (bits.take 4) = e ∧ fieldVal ((bits.drop 4).take 1) = rp ∧
    fieldVal ((bits.drop 5).take 6) = pi' ∧ bits.drop 11 = tail ∧ bits ≠ [] := by
  subst hbits
  have h4 : (writeBits e 4 ++ (writeBits rp 1 ++ (writeBits pi' 6 ++ tail))).drop 4 =
      writeBits rp 1 ++ (writeBits pi' 6 ++ tail) :=
    List.drop_left' (writeBits_length e 4)
  have h5a : (writeBits e 4 ++ (writeBits rp 1 ++ (writeBits pi' 6 ++ tail))).drop 5 =
      ((writeBits e 4 ++ (writeBits rp 1 ++ (writeBits pi' 6 ++ tail))).drop 4).drop 1 := by
    rw [List.drop_drop]
  have h5b : (writeBits rp 1 ++ (writeBits pi' 6 ++ tail)).drop 1 =
      writeBits pi' 6 ++ tail :=
    List.drop_left' (writeBits_length rp 1)
  have h11a : (writeBits e 4 ++ (writeBits rp 1 ++ (writeBits pi' 6 ++ tail))).drop 11 =
      (((writeBits e 4 ++ (writeBits rp 1 ++ (writeBits pi' 6 ++ tail))).drop 4).drop 1).drop 6 := by
    rw [List.drop_drop, List.drop_drop]
  refine ⟨?_, ?_, ?_, ?_, ?_⟩
  · rw [List.take_left' (writeBits_length e 4), fieldVal_writeBits, Nat.mod_eq_of_lt he]
  · rw [h4, List.take_left' (writeBits_length rp 1), fieldVal_writeBits,
      Nat.mod_eq_of_lt hrp]
  · rw [h5a, h4, h5b, List.take_left' (writeBits_length pi' 6), fieldVal_writeBits,
      Nat.mod_eq_of_lt hpi]
  · rw [h11a, h4, h5b, List.drop_left' (writeBits_length pi' 6)]
  · intro h
    have := congrArg List.length h
    simp [writeBits_length] at this

theorem specDecode_encFrame (f : FrameR) (hwf : wfFrame f = true)
    (hns : f.type ≠ FrameType.stop) (rest : List Nat) :
    specDecode (encFrameBits f ++ rest) = f :: specDecode rest := by
  unfold wfFrame at hwf
  cases hts : f.type with
  | stop => exact absurd hts hns
  | silence =>
    rw [hts] at hwf
    simp only [beq_iff_eq] at hwf
    subst hwf
    have henc : encFrameBits silenceFrame = [0, 0, 0, 0] := rfl
    rw [henc]
    have ht4 : (([0, 0, 0, 0] : List Nat) ++ rest).take 4 = [0, 0, 0, 0] :=
      List.take_left' rfl
    have hd4 : (([0, 0, 0, 0] : List Nat) ++ rest).drop 4 = rest :=
      List.drop_left' rfl
    rw [specDecode, dif_neg (by simp), ht4, hd4]
    norm_num
    rfl
  | repeatF =>
    rw [hts] at hwf
    simp only [Bool.and_eq_true, beq_iff_eq, decide_eq_true_eq] at hwf
    obtain ⟨⟨⟨h1, h2⟩, h3⟩, heq⟩ := hwf
    rw [heq]
    have henc : encFrameBits (mkRepeat f.energyIndex (f.pitchIndex.getD 0)) ++ rest =
        writeBits f.energyIndex 4 ++ (writeBits 1 1 ++
          (writeBits (f.pitchIndex.getD 0) 6 ++ rest)) := by
      show (writeBits f.energyIndex 4 ++ writeBits 1 1 ++
        writeBits (f.pitchIndex.getD 0) 6 ++ []) ++ rest = _
      simp [List.append_assoc]
    rw [henc]
    obtain ⟨hf4, hf1, hf6, hd11, hne⟩ := header_fields f.energyIndex 1
      (f.pitchIndex.getD 0) rest _ rfl (by omega) (by omega) (by omega)
    rw [specDecode, dif_neg hne, hf4, hf1, hf6, hd11,
      if_neg (by omega : ¬ f.energyIndex = 15), if_neg (by omega : ¬ f.energyIndex = 0),
      if_pos rfl]
  | unvoiced =>
    rw [hts] at hwf
    simp only [Bool.and_eq_true, beq_iff_eq, decide_eq_true_eq, List.all_eq_true,
      List.mem_range] at hwf
    obtain ⟨⟨⟨⟨h1, h2⟩, hlen⟩, hall⟩, heq⟩ := hwf
    have hclen : ((f.kIndices.getD []).take 4).length = 4 := by
      rw [List.length_take]
      omega
    obtain ⟨a0, a1, a2, a3, hc⟩ : ∃ a0 a1 a2 a3,
        (f.kIndices.getD []).take 4 = [a0, a1, a2, a3] := by
      rcases hcl : (f.kIndices.getD []).take 4 with _ | ⟨a0, _ | ⟨a1, _ | ⟨a2, _ | ⟨a3, _ | t⟩⟩⟩⟩ <;>
        rw [hcl] at hclen <;> simp at hclen
      exact ⟨a0, a1, a2, a3, rfl⟩
    have hbound : ∀ i, i < 4 → ([a0, a1, a2, a3] : List Nat).getD i 0 < 2 ^ K_BITS.getD i 0 := by
      intro i hi
      have := hall i (by omega)
      rw [← hc]
      rw [List.getD_eq_getElem _ _ (by omega), List.getElem_take,
        ← List.getD_eq_getElem _ 0 (by omega)]
      exact this
    rw [heq, hc]
    have henc : encFrameBits (mkUnvoiced f.energyIndex 0 [a0, a1, a2, a3]) ++ rest =
        writeBits f.energyIndex 4 ++ (writeBits 0 1 ++ (writeBits 0 6 ++
          (writeBits a0 5 ++ (writeBits a1 5 ++ (writeBits a2 4 ++
            (writeBits a3 4 ++ rest)))))) := by
      show (writeBits f.energyIndex 4 ++ writeBits 0 1 ++ writeBits 0 6 ++
        ((List.range 4).map fun i =>
          writeBits ((([a0, a1, a2, a3] ++ List.replicate 6 0) : List Nat).getD i 0)
            (K_BITS.getD i 0)).flatten) ++ rest = _
      norm_num [K_BITS, List.range_succ, List.append_assoc]
    rw [henc]
    obtain ⟨hf4, hf1, hf6, hd11, hne⟩ := header_fields f.energyIndex 0 0
      (writeBits a0 5 ++ (writeBits a1 5 ++ (writeBits a2 4 ++ (writeBits a3 4 ++ rest))))
      _ rfl (by omega) (by omega) (by omega)
    have hk : readFields [5, 5, 4, 4]
        (writeBits a0 5 ++ (writeBits a1 5 ++ (writeBits a2 4 ++ (writeBits a3 4 ++ rest)))) =
        ([a0, a1, a2, a3], rest) := by
      rw [readFields_step 5 _ a0 _ (by have := hbound 0 (by omega); simpa using this),
        readFields_step 5 _ a1 _ (by have := hbound 1 (by omega); simpa using this),
        readFields_step 4 _ a2 _ (by have := hbound 2 (by omega); simpa using this),
        readFields_step 4 _ a3 _ (by have := hbound 3 (by omega); simpa using this)]
      rfl
    rw [specDecode, dif_neg hne, hf4, hf1, hf6, hd11,
      if_neg (by omega : ¬ f.energyIndex = 15), if_neg (by omega : ¬ f.energyIndex = 0),
      if_neg (by omega : ¬ (0 : Nat) = 1), hk, if_pos rfl]
  | voiced =>
    rw [hts] at hwf
    simp only [Bool.and_eq_true, beq_iff_eq, decide_eq_true_eq, List.all_eq_true,
      List.mem_range] at hwf
    obtain ⟨⟨⟨⟨⟨⟨h1, h2⟩, h3⟩, h4⟩, hlen⟩, hall⟩, heq⟩ := hwf
    obtain ⟨b0, b1, b2, b3, b4, b5, b6, b7, b8, b9, hc⟩ :
        ∃ b0 b1 b2 b3 b4 b5 b6 b7 b8 b9,
        f.kIndices.getD [] = [b0, b1, b2, b3, b4, b5, b6, b7, b8, b9] := by
      rcases hcl : f.kIndices.getD [] with _ | ⟨b0, _ | ⟨b1, _ | ⟨b2, _ | ⟨b3, _ | ⟨b4,
        _ | ⟨b5, _ | ⟨b6, _ | ⟨b7, _ | ⟨b8, _ | ⟨b9, _ | t⟩⟩⟩⟩⟩⟩⟩⟩⟩⟩ <;>
        rw [hcl] at hlen <;> simp at hlen
      exact ⟨b0, b1, b2, b3, b4, b5, b6, b7, b8, b9, rfl⟩
    have hbound : ∀ i, i < 10 →
        ([b0, b1, b2, b3, b4, b5, b6, b7, b8, b9] : List Nat).getD i 0 <
          2 ^ K_BITS.getD i 0 := by
      intro i hi
      have := hall i (by omega)
      rw [hc] at this
      exact this
    rw [heq, hc]
    have henc : encFrameBits (mkVoiced f.energyIndex (f.pitchIndex.getD 0)
        [b0, b1, b2, b3, b4, b5, b6, b7, b8, b9]) ++ rest =
        writeBits f.energyIndex 4 ++ (writeBits 0 1 ++
          (writeBits (f.pitchIndex.getD 0) 6 ++
          (writeBits b0 5 ++ (writeBits b1 5 ++ (writeBits b2 4 ++ (writeBits b3 4 ++
          (writeBits b4 4 ++ (writeBits b5 4 ++ (writeBits b6 4 ++ (writeBits b7 3 ++
          (writeBits b8 3 ++ (writeBits b9 3 ++ rest)))))))))))) := by
      show (writeBits f.energyIndex 4 ++ writeBits 0 1 ++
        writeBits (f.pitchIndex.getD 0) 6 ++
        ((List.range 10).map fun i =>
          writeBits ((([b0, b1, b2, b3, b4, b5, b6, b7, b8, b9]) : List Nat).getD i 0)
            (K_BITS.getD i 0)).flatten) ++ rest = _
      norm_num [K_BITS, List.range_succ, List.append_assoc]
    rw [henc]
    obtain ⟨hf4, hf1, hf6, hd11, hne⟩ := header_fields f.energyIndex 0
      (f.pitchIndex.getD 0)
      (writeBits b0 5 ++ (writeBits b1 5 ++ (writeBits b2 4 ++ (writeBits b3 4 ++
        (writeBits b4 4 ++ (writeBits b5 4 ++ (writeBits b6 4 ++ (writeBits b7 3 ++
        (writeBits b8 3 ++ (writeBits b9 3 ++ rest))))))))))
      _ rfl (by omega) (by omega) (by omega)
    have hk4 : readFields [5, 5, 4, 4]
        (writeBits b0 5 ++ (writeBits b1 5 ++ (writeBits b2 4 ++ (writeBits b3 4 ++
          (writeBits b4 4 ++ (writeBits b5 4 ++ (writeBits b6 4 ++ (writeBits b7 3 ++
          (writeBits b8 3 ++ (writeBits b9 3 ++ rest)))))))))) =
        ([b0, b1, b2, b3],
          writeBits b4 4 ++ (writeBits b5 4 ++ (writeBits b6 4 ++ (writeBits b7 3 ++
            (writeBits b8 3 ++ (writeBits b9 3 ++ rest)))))) := by
      rw [readFields_step 5 _ b0 _ (by have := hbound 0 (by omega); simpa using this),
        readFields_step 5 _ b1 _ (by have := hbound 1 (by omega); simpa using this),
        readFields_step 4 _ b2 _ (by have := hbound 2 (by omega); simpa using this),
        readFields_step 4 _ b3 _ (by have := hbound 3 (by omega); simpa using this)]
      rfl
    have hk6 : readFields [4, 4, 4, 3, 3, 3]
        (writeBits b4 4 ++ (writeBits b5 4 ++ (writeBits b6 4 ++ (writeBits b7 3 ++
          (writeBits b8 3 ++ (writeBits b9 3 ++ rest)))))) =
        ([b4, b5, b6, b7, b8, b9], rest) := by
      rw [readFields_step 4 _ b4 _ (by have := hbound 4 (by omega); simpa using this),
        readFields_step 4 _ b5 _ (by have := hbound 5 (by omega); simpa using this),
        readFields_step 4 _ b6 _ (by have := hbound 6 (by omega); simpa using this),
        readFields_step 3 _ b7 _ (by have := hbound 7 (by omega); simpa using this),
        readFields_step 3 _ b8 _ (by have := hbound 8 (by omega); simpa using this),
        readFields_step 3 _ b9 _ (by have := hbound 9 (by omega); simpa using this)]
      rfl
    rw [specDecode, dif_neg hne, hf4, hf1, hf6, hd11,
      if_neg (by omega : ¬ f.energyIndex = 15), if_neg (by omega : ¬ f.energyIndex = 0),
      if_neg (by omega : ¬ (0 : Nat) = 1), hk4]
    dsimp only
    rw [hk6, if_neg (by omega : ¬ f.pitchIndex.getD 0 = 0)]
    rfl

theorem specDecode_stop (pad : List Nat) :
    specDecode (writeBits 15 4 ++ pad) = [stopFrame] := by
  have h : writeBits 15 4 = [1, 1, 1, 1] := rfl
  rw [h, specDecode, dif_neg (by simp)]
  have ht : (([1, 1, 1, 1] : List Nat) ++ pad).take 4 = [1, 1, 1, 1] :=
    List.take_left' rfl
  rw [ht]
  norm_num [fieldVal]

theorem specDecode_encList (fs : List FrameR) (hwf : ∀ f ∈ fs, wfFrame f = true)
    (hns : ∀ f ∈ fs, f.type ≠ FrameType.stop) (tail : List Nat) :
    specDecode ((fs.map encFrameBits).flatten ++ tail) = fs ++ specDecode tail := by
  induction fs with
  | nil => simp
  | cons f fs ih =>
    rw [List.map_cons, List.flatten_cons, List.append_assoc,
      specDecode_encFrame f (hwf f (List.mem_cons_self f fs))
        (hns f (List.mem_cons_self f fs)),
      ih (fun g hg => hwf g (List.mem_cons_of_mem f hg))
        (fun g hg => hns g (List.mem_cons_of_mem f hg)),
      List.cons_append]

theorem encFrameBits_le_one (f : FrameR) : ∀ x ∈ encFrameBits f, x ≤ 1 := by
  intro x hx
  unfold encFrameBits at hx
  split at hx
  · exact writeBits_le_one _ _ x hx
  split at hx
  · exact writeBits_le_one _ _ x hx
  · simp only [List.mem_append] at hx
    rcases hx with ((hx | hx) | hx) | hx
    · exact writeBits_le_one _ _ x hx
    · exact writeBits_le_one _ _ x hx
    · exact writeBits_le_one _ _ x hx
    · split at hx
      · simp at hx
      · obtain ⟨l, hl, hxl⟩ := List.mem_flatten.mp hx
        obtain ⟨i, _, rfl⟩ := List.mem_map.mp hl
        exact writeBits_le_one _ _ x hxl

/-- **C2 (amended).** For frame lists whose frames are well formed and none of
which is a Stop frame, decoding the encoding yields the list with one terminal
Stop appended; if the original list already ends with one Stop frame, decoding
the encoding yields the original list; and the encoder's bit stream is the
per-frame bits followed by the four-bit value 0xF and zero padding of the
trailing bits of the last byte.  (Without the no-interior-Stop restriction the
round trip fails: see the counterexample.) -/
theorem decode_encode_roundtrip (gs : List FrameR)
    (hwf : ∀ f ∈ gs, wfFrame f = true)
    (hns : ∀ f ∈ gs, f.type ≠ FrameType.stop) :
    decodeFrames (encodeFrames gs) = gs ++ [stopFrame] ∧
    decodeFrames (encodeFrames (gs ++ [stopFrame])) = gs ++ [stopFrame] ∧
    bytesToBits (encodeFrames gs) =
      ((gs.map encFrameBits).flatten ++ writeBits 15 4) ++
        List.replicate
          ((8 - ((gs.map encFrameBits).flatten ++ writeBits 15 4).length % 8) % 8) 0 := by
  set bits := (gs.map encFrameBits).flatten ++ writeBits 15 4 with hbits
  have hble : ∀ x ∈ bits, x ≤ 1 := by
    intro x hx
    rw [hbits] at hx
    rcases List.mem_append.mp hx with hx | hx
    · obtain ⟨l, hl, hxl⟩ := List.mem_flatten.mp hx
      obtain ⟨f, _, rfl⟩ := List.mem_map.mp hl
      exact encFrameBits_le_one f x hxl
    · exact writeBits_le_one _ _ x hx
  have hbits1 : encodeFrames gs = bitsToBytes bits := by
    unfold encodeFrames
    cases hgl : gs.getLast? with
    | none => rfl
    | some f =>
      have hf : f ∈ gs := by
        obtain ⟨l', rfl⟩ := List.getLast?_eq_some_iff.mp hgl
        simp
      dsimp only
      rw [if_neg (hns f hf)]
  have hbits2 : encodeFrames (gs ++ [stopFrame]) = bitsToBytes bits := by
    unfold encodeFrames
    rw [List.getLast?_concat]
    dsimp only
    rw [if_pos (show stopFrame.type = FrameType.stop from rfl),
      List.map_append, List.flatten_append, List.append_nil]
    rfl
  have hdec : decodeFrames (bitsToBytes bits) = gs ++ [stopFrame] := by
    rw [decodeFrames, decodeLoop_eq_specDecode _ 0, List.drop_zero,
      bytesToBits_bitsToBytes bits.length bits rfl hble, hbits,
      List.append_assoc, specDecode_encList gs hwf hns _, specDecode_stop]
  refine ⟨hbits1 ▸ hdec, hbits2 ▸ hdec, ?_⟩
  rw [hbits1, bytesToBits_bitsToBytes bits.length bits rfl hble, hbits]

/-- **C2 witness.** The round trip at the one-frame list `[silenceFrame]`:
decoding the encoding appends the terminal Stop. -/
theorem decode_encode_roundtrip_witness :
    decodeFrames (encodeFrames [silenceFrame]) = [silenceFrame, stopFrame] :=
  (decode_encode_roundtrip [silenceFrame] (by decide) (by decide)).1

/-- **C2 counterexample.** The round trip fails for frame lists with an
interior Stop frame, even with every field in range: `[stopFrame,
silenceFrame]` encodes to the bytes `[0x0F, 0x0F]` (stop nibble, silence
nibble, appended terminal stop nibble, zero padding), but the decoder stops
at the first Stop frame and returns `[stopFrame]` — neither the original
list nor the original list with a terminal Stop appended. -/
theorem roundtrip_counterexample :
    encodeFrames [stopFrame, silenceFrame] = [15, 15] ∧
    decodeFrames (encodeFrames [stopFrame, silenceFrame]) = [stopFrame] ∧
    decodeFrames (encodeFrames [stopFrame, silenceFrame]) ≠
      [stopFrame, silenceFrame] ∧
    decodeFrames (encodeFrames [stopFrame, silenceFrame]) ≠
      [stopFrame, silenceFrame, stopFrame] := by
  have henc : encodeFrames [stopFrame, silenceFrame] = [15, 15] := by
    show bitsToBytes [1, 1, 1, 1, 0, 0, 0, 0, 1, 1, 1, 1] = [15, 15]
    rw [bitsToBytes, dif_neg (by simp)]
    norm_num
    constructor
    · decide
    rw [bitsToBytes, dif_neg (by simp)]
    norm_num
    constructor
    · decide
    rw [bitsToBytes]
    simp
  have hdec : decodeFrames [15, 15] = [stopFrame] := by
    rw [decodeFrames, decodeLoop]
    rw [dif_pos (by norm_num : (0 : Nat) < [15, 15].length * 8)]
    have e1 : readBitsVal [15, 15] 0 4 = 15 := by decide
    dsimp only
    rw [e1, if_pos rfl]
  refine ⟨henc, ?_, ?_, ?_⟩ <;> rw [henc, hdec]
  · decide
  · decide
